import Mathlib

/-!
Shallow embedding of `rvc/train/preprocess/preprocess.py` (Applio audio
preprocessing pipeline).

Waveforms are modelled as `List ℚ` (sample values with exact rational
arithmetic standing in for Python floats), sample rates as `ℕ`.  External
capabilities (audio decoding, the silence slicer, the high-pass filter,
resampling, the directory listing, the artifact writes and the report file)
are bundled in a capability structure `Ext`; Python exceptions raised by
those capabilities are modelled with `Except` / success flags.  The
per-file pipeline (`process_audio`, `process_audio_segment`,
`_normalize_audio`), the duration report (`format_duration`,
`save_dataset_duration`) and the orchestrator (`preprocess_training_set`)
are transcribed from the source.
-/

set_option autoImplicit false

namespace Preprocess

/-! ### Constants (preprocess.py lines 28-33) -/

def OVERLAP : ℚ := 3 / 10

def MAX_AMPLITUDE : ℚ := 9 / 10

def ALPHA : ℚ := 3 / 4

def HIGH_PASS_CUTOFF : ℕ := 48

def SAMPLE_RATE_16K : ℕ := 16000

/-- Python `int(q)` for the nonnegative quantities floored in this file
(`int(sr * (per - OVERLAP) * i)` and `int(per * sr)`); computed as
`⌊q⌋` clamped to `ℕ`.  All floored quantities in the source are
nonnegative whenever `OVERLAP ≤ per` (the configuration used throughout),
where Python's truncation toward zero agrees with the floor. -/
def natFloor (q : ℚ) : ℕ :=
  q.num.toNat / q.den

/-- `np.abs(audio).max()` — the absolute peak of a waveform.  `numpy`'s
`max` is only defined on nonempty arrays; on nonempty lists the fold below
computes exactly the maximum of the absolute values (they are all `≥ 0`). -/
def absPeak (audio : List ℚ) : ℚ :=
  (audio.map (fun a => |a|)).foldl max 0

/-- `PreProcess._normalize_audio` (lines 58-62): reject a window whose
absolute peak exceeds `2.5`, otherwise blend hard peak-normalization to
`MAX_AMPLITUDE` with the original signal.  `None` models the rejection
return. -/
def _normalize_audio (audio : List ℚ) : Option (List ℚ) :=
  let tmp_max := absPeak audio
  if tmp_max > 5 / 2 then none
  else some (audio.map (fun a => a / tmp_max * (MAX_AMPLITUDE * ALPHA) + (1 - ALPHA) * a))

/-- Output directory tag: `sliced_audios` (native rate, "ground truth") or
`sliced_audios_16k`. -/
inductive Dir where
  | gt
  | k16
  deriving DecidableEq, Repr

/-- One artifact written by `wavfile.write`: target directory, naming key
`(idx0, idx1)` (the file is named `idx0_idx1.wav` in that directory),
sample rate tag and sample data. -/
structure Write where
  dir : Dir
  idx0 : ℕ
  idx1 : ℕ
  rate : ℕ
  data : List ℚ
  deriving DecidableEq, Repr

/-- State of the JSON report file at `exp_dir/model_info.json` before the
run: absent (`json.load` raises `FileNotFoundError`, which is caught),
present but unparsable (`json.load` raises `JSONDecodeError`, which is NOT
caught), or present with parsed content. -/
inductive ReportFile where
  | notFound
  | invalid
  | found (data : List (String × (String ⊕ ℚ)))
  deriving DecidableEq

/-- A JSON value stored in the report object: a string or a number.  -/
abbrev JVal := String ⊕ ℚ

/-- External capabilities consumed by the pipeline (spec §6): audio decode,
high-pass filter application, the silence Slicer, the resampler, artifact
write success, the input-directory listing and the report file.  `Except`
results model Python exceptions raised by the capability. -/
structure Ext where
  load_audio : String → ℕ → Except String (List ℚ)
  lfilter : List ℚ → Except String (List ℚ)
  slice : List ℚ → Except String (List (List ℚ))
  resample : List ℚ → ℕ → ℕ → List ℚ
  writeOk : Write → Bool
  listdir : Except String (List String)
  report : ReportFile

/-- `PreProcess.process_audio_segment` (lines 64-88): normalize (when
`process_effects`), drop the window entirely when normalization rejects it,
otherwise write the native-rate artifact and then the resampled 16 kHz
artifact.  Returns the artifacts actually written together with a success
flag; `false` models a `wavfile.write` / resample exception (the first
failing write aborts the rest of the segment's processing, leaving earlier
writes on disk). -/
def process_audio_segment (E : Ext) (sr : ℕ) (audio_segment : List ℚ)
    (idx0 idx1 : ℕ) (process_effects : Bool) : List Write × Bool :=
  let normalized_audio :=
    if process_effects then _normalize_audio audio_segment else some audio_segment
  match normalized_audio with
  | none => ([], true)
  | some na =>
    let w1 : Write := ⟨Dir.gt, idx0, idx1, sr, na⟩
    if E.writeOk w1 then
      let audio_16k := E.resample na sr SAMPLE_RATE_16K
      let w2 : Write := ⟨Dir.k16, idx0, idx1, SAMPLE_RATE_16K, audio_16k⟩
      if E.writeOk w2 then ([w1, w2], true) else ([w1], false)
    else ([], false)

/-- The window-cutting `while True` loop of `process_audio` (lines
106-124), abstracted to the sample ranges it emits over a segment of `n`
samples.  Iteration `i` computes `start = int(sr * (per - OVERLAP) * i)`;
if more than `(per + OVERLAP) * sr` samples remain past `start` it emits
the full window `[start, start + int(per * sr))` and continues, otherwise
it emits the tail `[start, n)` and breaks.  `fuel` bounds the number of
iterations; `none` means the fuel ran out before the loop broke (the
Python loop would still be running). -/
def cutLoop (sr : ℕ) (per : ℚ) (n : ℕ) : ℕ → ℕ → Option (List (ℕ × ℕ))
  | 0, _ => none
  | fuel + 1, i =>
    let start := natFloor ((sr : ℚ) * (per - OVERLAP) * i)
    if ((n - start : ℕ) : ℚ) > (per + OVERLAP) * sr then
      (cutLoop sr per n fuel (i + 1)).map
        (fun rest => (start, min (start + natFloor (per * sr)) n) :: rest)
    else
      some [(min start n, n)]

/-- The ranges emitted by the window cutter on a segment of `n` samples.
`n + 2` units of fuel are enough for the loop to reach its `break`
whenever `sr * (per - OVERLAP) ≥ 1` (one emitted window per unit of fuel,
and each full window advances `start` by at least one sample). -/
def cutRanges (sr : ℕ) (per : ℚ) (n : ℕ) : List (ℕ × ℕ) :=
  (cutLoop sr per n (n + 2) 0).getD []

/-- The sub-waveform of `xs` on the sample range `[r.1, r.2)` — Python's
`xs[r.1 : r.2]` for `r.1 ≤ r.2`. -/
def sliceR (xs : List ℚ) (r : ℕ × ℕ) : List ℚ :=
  (xs.drop r.1).take (r.2 - r.1)

/-- The windows (as waveforms) emitted by the cutter on segment `xs`. -/
def cutWindows (sr : ℕ) (per : ℚ) (xs : List ℚ) : List (List ℚ) :=
  (cutRanges sr per xs.length).map (sliceR xs)

/-- The window-cutting loop of `process_audio` (lines 106-124) over one
segment, with the artifact writes it performs: state `(fuel, i, idx1)`,
result `(writes, next idx1, success)`.  `success = false` models a write
exception escaping the loop (processing of the file stops, writes so far
remain); the fuel-exhausted result is junk (the Python loop would not have
terminated) and is never reached under the fuel budget used below. -/
def segmentLoop (E : Ext) (sr : ℕ) (per : ℚ) (seg : List ℚ) (idx0 : ℕ)
    (process_effects : Bool) : ℕ → ℕ → ℕ → List Write × ℕ × Bool
  | 0, _, idx1 => ([], idx1, true)
  | fuel + 1, i, idx1 =>
    let start := natFloor ((sr : ℚ) * (per - OVERLAP) * i)
    if ((seg.drop start).length : ℚ) > (per + OVERLAP) * sr then
      let tmp_audio := (seg.drop start).take (natFloor (per * sr))
      let res := process_audio_segment E sr tmp_audio idx0 idx1 process_effects
      if res.2 then
        let rest := segmentLoop E sr per seg idx0 process_effects fuel (i + 1) (idx1 + 1)
        (res.1 ++ rest.1, rest.2.1, rest.2.2)
      else (res.1, idx1, false)
    else
      let tmp_audio := seg.drop start
      let res := process_audio_segment E sr tmp_audio idx0 idx1 process_effects
      if res.2 then (res.1, idx1 + 1, true) else (res.1, idx1, false)

/-- The `for audio_segment in self.slicer.slice(audio)` loop of
`process_audio` (line 105): the window index `idx1` threads across the
file's segments in encounter order; a write exception aborts the remaining
segments. -/
def segmentsLoop (E : Ext) (sr : ℕ) (per : ℚ) (idx0 : ℕ) (process_effects : Bool) :
    List (List ℚ) → ℕ → List Write × ℕ × Bool
  | [], idx1 => ([], idx1, true)
  | seg :: rest, idx1 =>
    let r1 := segmentLoop E sr per seg idx0 process_effects (seg.length + 2) 0 idx1
    if r1.2.2 then
      let r2 := segmentsLoop E sr per idx0 process_effects rest r1.2.1
      (r1.1 ++ r2.1, r2.2.1, r2.2.2)
    else r1

/-- `PreProcess.process_audio` (lines 90-129).  Returns the file's reported
duration together with the artifacts written.  The `try` body runs load →
duration → optional high-pass filter → optional slicing + window cutting
(or a single whole-file window); any exception is caught at this per-file
boundary, so the function always returns.  `audio_length` is `0` until the
decoded duration `len(audio) / sr` has been computed (line 100), and keeps
that value when a later stage raises. -/
def process_audio (E : Ext) (sr : ℕ) (per : ℚ) (path : String) (idx0 : ℕ)
    (cut_preprocess process_effects : Bool) : ℚ × List Write :=
  match E.load_audio path sr with
  | .error _ => (0, [])
  | .ok audio0 =>
    let audio_length : ℚ := (audio0.length : ℚ) / (sr : ℚ)
    match (if process_effects then E.lfilter audio0 else .ok audio0) with
    | .error _ => (audio_length, [])
    | .ok audio =>
      if cut_preprocess then
        match E.slice audio with
        | .error _ => (audio_length, [])
        | .ok segments =>
          (audio_length, (segmentsLoop E sr per idx0 process_effects segments 0).1)
      else
        (audio_length, (process_audio_segment E sr audio idx0 0 process_effects).1)

/-! ### Duration report (lines 132-154) -/

/-- Python `f"{n:02}"`: decimal rendering zero-padded to width 2. -/
def pad2 (n : ℤ) : String :=
  let s := toString n
  if s.length < 2 then "0" ++ s else s

/-- `format_duration` (lines 132-136): `HH:MM:SS` from a duration in
seconds (`//` and `%` are Python float floor-division and modulus). -/
def format_duration (seconds : ℚ) : String :=
  let hours : ℤ := ⌊seconds / 3600⌋
  let minutes : ℤ := ⌊(seconds - 3600 * ⌊seconds / 3600⌋) / 60⌋
  let secs : ℤ := ⌊seconds - 60 * ⌊seconds / 60⌋⌋
  pad2 hours ++ ":" ++ pad2 minutes ++ ":" ++ pad2 secs

/-- Python dict assignment `d[k] = v` on a JSON object with (unique) keys
in insertion order: replace the value of an existing key in place,
otherwise append the new pair at the end. -/
def setKey : List (String × JVal) → String → JVal → List (String × JVal)
  | [], k, v => [(k, v)]
  | (k', v') :: t, k, v =>
    if k' = k then (k, v) :: t else (k', v') :: setKey t k v

/-- Python `data.update(new_data)`: assign every pair of `upd` into `data`
in order. -/
def dictUpdate (data upd : List (String × JVal)) : List (String × JVal) :=
  upd.foldl (fun d p => setKey d p.1 p.2) data

/-- The two report fields owned by the run (lines 147-150). -/
def newReportData (dataset_duration : ℚ) : List (String × JVal) :=
  [("total_dataset_duration", Sum.inl (format_duration dataset_duration)),
   ("total_seconds", Sum.inr dataset_duration)]

/-- `save_dataset_duration` (lines 139-154): read the existing report
(`FileNotFoundError` is caught and yields an empty object; a present but
unparsable file raises `JSONDecodeError`, which is NOT caught), merge in
the two duration fields, and write the result back. -/
def save_dataset_duration (file : ReportFile) (dataset_duration : ℚ) :
    Except String (List (String × JVal)) :=
  match file with
  | .invalid => .error "JSONDecodeError"
  | .notFound => .ok (dictUpdate [] (newReportData dataset_duration))
  | .found data => .ok (dictUpdate data (newReportData dataset_duration))

/-! ### Orchestrator (lines 163-194) -/

/-- The extension filter of the file enumeration (line 179):
`f.lower().endswith((".wav", ".mp3", ".flac", ".ogg"))`. -/
def isAudioFile (f : String) : Bool :=
  [".wav", ".mp3", ".flac", ".ogg"].any (fun e => (f.toLower).endsWith e)

/-- `preprocess_training_set` (lines 163-194): enumerate the input listing
(indices are assigned before the extension filter, as in the source),
process every file through `process_audio` (the pool map: each file is an
independent unit), sum the returned durations, and merge them into the
report.  An unreadable input root (`os.listdir` raising) is fatal before
any dispatch; an error from `save_dataset_duration` is fatal after
processing.  Returns the total duration, the saved report object, and all
artifacts written. -/
def preprocess_training_set (E : Ext) (sr : ℕ) (per : ℚ)
    (cut_preprocess process_effects : Bool) :
    Except String (ℚ × List (String × JVal) × List Write) :=
  match E.listdir with
  | .error e => .error e
  | .ok names =>
    let files := (names.enum.filter (fun p => isAudioFile p.2)).map
      (fun p => (p.2, p.1))
    let results := files.map
      (fun f => process_audio E sr per f.1 f.2 cut_preprocess process_effects)
    let audio_length := (results.map Prod.fst).sum
    match save_dataset_duration E.report audio_length with
    | .error e => .error e
    | .ok rep => .ok (audio_length, rep, (results.map Prod.snd).flatten)

/-! ### Proof-layer definitions -/

/-- Pure-`ℕ` replica of `cutLoop` for sample-aligned configurations, where
`w = (per - OVERLAP) * sr` (the stride) and `o = OVERLAP * sr` (the
overlap) are whole numbers of samples; `cutLoop_eq_natLoop` below proves it
equal to `cutLoop`.  Every real configuration of the source (`per ∈
{3.0, 3.7}` at `sr ∈ {32000, 40000, 48000}`) is sample-aligned. -/
def natLoop (w o n : ℕ) : ℕ → ℕ → Option (List (ℕ × ℕ))
  | 0, _ => none
  | fuel + 1, i =>
    if n - w * i > w + 2 * o then
      (natLoop w o n fuel (i + 1)).map (fun rest => (w * i, min (w * i + (w + o)) n) :: rest)
    else
      some [(min (w * i) n, n)]

/-- The window indices of the artifacts written into the native-rate
directory `sliced_audios`, in write order. -/
def gtIdxs (ws : List Write) : List ℕ :=
  (ws.filter (fun w => w.dir == Dir.gt)).map (fun w => w.idx1)

/-- The window indices of the artifacts written into the 16 kHz directory
`sliced_audios_16k`, in write order. -/
def k16Idxs (ws : List Write) : List ℕ :=
  (ws.filter (fun w => w.dir == Dir.k16)).map (fun w => w.idx1)

/-- A benign environment: decoding yields a fixed two-sample waveform, the
filter and resampler are identities, the slicer returns its input as a
single segment, all writes succeed, and no report file pre-exists. -/
def extBase : Ext where
  load_audio := fun _ _ => .ok [1, 1]
  lfilter := fun a => .ok a
  slice := fun a => .ok [a]
  resample := fun a _ _ => a
  writeOk := fun _ => true
  listdir := .ok ["a.wav"]
  report := .notFound

/-- Like `extBase`, but the high-pass filter raises on every input. -/
def extFilterFail : Ext :=
  { extBase with lfilter := fun _ => .error "lfilter failed" }

/-- A waveform whose first cut window (10 samples at `sr = 10`, `per = 1`)
has peak `3 > 2.5` and is rejected by the normalizer, while the tail
window (the last 13 samples) has peak `1` and is accepted. -/
def segRej : List ℚ := 3 :: List.replicate 19 1

/-- Like `extBase`, but decoding yields `segRej`. -/
def extRej : Ext :=
  { extBase with load_audio := fun _ _ => .ok segRej }

/-- An environment whose input root is readable (and empty) but whose
pre-existing report file is unparsable JSON. -/
def extBadReport : Ext :=
  { extBase with listdir := .ok [], report := .invalid }

/-- Like `extBase`, but decoding raises on every file. -/
def extLoadFail : Ext :=
  { extBase with load_audio := fun _ _ => .error "decode failed" }

/-- Like `extBase`, but the input root is unreadable. -/
def extNoRoot : Ext :=
  { extBase with listdir := .error "input root unreadable" }

/-- Like `extBase`, but decoding yields a 10-second waveform at 40000 Hz
(400000 samples of value `1/2`). -/
def extTen : Ext :=
  { extBase with load_audio := fun _ _ => .ok (List.replicate 400000 (1 / 2)) }

/-- Like `extBase`, but only native-rate writes succeed: the 16 kHz write
raises (`wavfile.write` failing on the `sliced_audios_16k` file) after the
native-rate write has already gone through. -/
def extGtOnly : Ext :=
  { extBase with writeOk := fun w => w.dir == Dir.gt }

/-! ### Lemmas about `natFloor` -/

theorem nat_div_bounds (a d : ℕ) (hd : 0 < d) :
    ((a / d : ℕ) : ℚ) ≤ (a : ℚ) / (d : ℚ) ∧
      (a : ℚ) / (d : ℚ) < ((a / d : ℕ) : ℚ) + 1 := by
  have hd' : (0 : ℚ) < (d : ℚ) := by exact_mod_cast hd
  constructor
  · rw [le_div_iff₀ hd']
    exact_mod_cast Nat.div_mul_le_self a d
  · rw [div_lt_iff₀ hd']
    have key : a < (a / d + 1) * d :=
      calc a = d * (a / d) + a % d := (Nat.div_add_mod a d).symm
        _ < d * (a / d) + d := by have := Nat.mod_lt a hd; omega
        _ = (a / d + 1) * d := by ring
    exact_mod_cast key

theorem natFloor_eq_floor (q : ℚ) : natFloor q = ⌊q⌋₊ := by
  rcases le_or_lt 0 q with hq | hq
  · have hnum : 0 ≤ q.num := Rat.num_nonneg.mpr hq
    have hden : 0 < q.den := q.den_pos
    have hcast : ((q.num.toNat : ℕ) : ℚ) = ((q.num : ℤ) : ℚ) := by
      exact_mod_cast congrArg (fun z : ℤ => (z : ℚ)) (Int.toNat_of_nonneg hnum)
    have hq' : q = ((q.num.toNat : ℕ) : ℚ) / ((q.den : ℕ) : ℚ) := by
      rw [hcast, Rat.num_div_den]
    have key := nat_div_bounds q.num.toNat q.den hden
    rw [← hq'] at key
    symm
    rw [Nat.floor_eq_iff hq]
    exact key
  · have hnum : q.num < 0 :=
      lt_of_not_ge (fun h => (not_le.mpr hq) (Rat.num_nonneg.mp h))
    have h1 : natFloor q = 0 := by
      simp [natFloor, Int.toNat_of_nonpos hnum.le]
    rw [h1, Nat.floor_of_nonpos hq.le]

theorem natFloor_natCast (k : ℕ) : natFloor (k : ℚ) = k := by
  rw [natFloor_eq_floor, Nat.floor_natCast]

theorem natFloor_eq_of_bounds (q : ℚ) (k : ℕ) (h1 : (k : ℚ) ≤ q)
    (h2 : q < (k : ℚ) + 1) : natFloor q = k := by
  rw [natFloor_eq_floor]
  exact (Nat.floor_eq_iff (le_trans (by positivity) h1)).mpr ⟨h1, h2⟩

/-! ### The cutter over sample-aligned configurations -/

theorem cutLoop_eq_natLoop (sr : ℕ) (per : ℚ) (w o : ℕ)
    (hw : (sr : ℚ) * (per - OVERLAP) = (w : ℚ))
    (ho : OVERLAP * (sr : ℚ) = (o : ℚ)) :
    ∀ fuel i n, cutLoop sr per n fuel i = natLoop w o n fuel i := by
  have hm : per * (sr : ℚ) = ((w + o : ℕ) : ℚ) := by
    push_cast
    rw [← hw, ← ho]; ring
  have hb : (per + OVERLAP) * (sr : ℚ) = ((w + 2 * o : ℕ) : ℚ) := by
    push_cast
    rw [← hw, ← ho]; ring
  intro fuel
  induction fuel with
  | zero => intro i n; rfl
  | succ f ih =>
    intro i n
    have hstart : natFloor ((sr : ℚ) * (per - OVERLAP) * (i : ℕ)) = w * i := by
      rw [hw, show ((w : ℚ) * (i : ℕ)) = ((w * i : ℕ) : ℚ) by push_cast; ring,
        natFloor_natCast]
    have htake : natFloor (per * (sr : ℚ)) = w + o := by rw [hm, natFloor_natCast]
    have hcond : (((n - w * i : ℕ) : ℚ) > (per + OVERLAP) * (sr : ℚ)) ↔
        (n - w * i > w + 2 * o) := by
      rw [hb, gt_iff_lt, gt_iff_lt, Nat.cast_lt]
    by_cases hc : n - w * i > w + 2 * o
    · rw [cutLoop, natLoop, if_pos hc]
      simp only [hstart, htake, if_pos (hcond.mpr hc), ih]
    · rw [cutLoop, natLoop, if_neg hc]
      simp only [hstart, htake, if_neg (fun h => hc (hcond.mp h))]

theorem natLoop_spec (w o n : ℕ) (hw1 : 1 ≤ w) (ho1 : 1 ≤ o) :
    ∀ fuel i, 1 ≤ fuel → n ≤ w * (i + fuel - 1) → w * i ≤ n →
    ∃ rs, natLoop w o n fuel i = some rs ∧
      rs ≠ [] ∧
      (∀ t, t < rs.length → (rs.getD t (0, 0)).1 = w * (i + t)) ∧
      (∀ t, t + 1 < rs.length → (rs.getD t (0, 0)).2 = w * (i + t) + (w + o)) ∧
      (rs.getD (rs.length - 1) (0, 0)).2 = n ∧
      (∀ j, w * i ≤ j → j < n → ∃ r ∈ rs, r.1 ≤ j ∧ j < r.2) := by
  intro fuel
  induction fuel with
  | zero => intro i h1 _ _; omega
  | succ f ih =>
    intro i _ hfuel hstart
    by_cases hc : n - w * i > w + 2 * o
    · have hc' : w * i + (w + 2 * o) < n := by
        have h := Nat.lt_sub_iff_add_lt.mp hc
        linarith
      have e1 : w * (i + 1) = w * i + w := by ring
      have hf1 : 1 ≤ f := by
        by_contra hf0
        have hfz : f = 0 := by omega
        subst hfz
        have hidx : i + (0 + 1) - 1 = i := by omega
        rw [hidx] at hfuel
        linarith
      have hidx : (i + 1) + f - 1 = i + (f + 1) - 1 := by omega
      have hfuel' : n ≤ w * ((i + 1) + f - 1) := by rw [hidx]; exact hfuel
      have hstart' : w * (i + 1) ≤ n := by rw [e1]; linarith
      obtain ⟨rs', hrs', hne', hst', hen', hla', hcov'⟩ := ih (i + 1) hf1 hfuel' hstart'
      have hmin : min (w * i + (w + o)) n = w * i + (w + o) := by
        apply Nat.min_eq_left; linarith
      refine ⟨(w * i, w * i + (w + o)) :: rs', ?_, by simp, ?_, ?_, ?_, ?_⟩
      · rw [natLoop, if_pos hc, hrs']
        simp [hmin]
      · intro t ht
        cases t with
        | zero => simp
        | succ s =>
          simp only [List.getD_cons_succ]
          have hlen : s < rs'.length := by
            simp only [List.length_cons] at ht
            omega
          rw [hst' s hlen]
          congr 1
          omega
      · intro t ht
        cases t with
        | zero => simp
        | succ s =>
          simp only [List.getD_cons_succ]
          have hlen : s + 1 < rs'.length := by
            simp only [List.length_cons] at ht
            omega
          rw [hen' s hlen]
          congr 2
          omega
      · have hL : rs'.length - 1 + 1 = rs'.length :=
          Nat.succ_pred_eq_of_pos (List.length_pos.mpr hne')
        simp only [List.length_cons, Nat.add_sub_cancel]
        rw [← hL, List.getD_cons_succ]
        exact hla'
      · intro j hj1 hj2
        by_cases hj : j < w * i + (w + o)
        · exact ⟨(w * i, w * i + (w + o)), by simp, hj1, hj⟩
        · push_neg at hj
          have hj' : w * (i + 1) ≤ j := by rw [e1]; linarith
          obtain ⟨r, hr, hr1, hr2⟩ := hcov' j hj' hj2
          exact ⟨r, by simp [hr], hr1, hr2⟩
    · have hmin : min (w * i) n = w * i := Nat.min_eq_left hstart
      refine ⟨[(w * i, n)], ?_, by simp, ?_, ?_, by simp, ?_⟩
      · rw [natLoop, if_neg hc, hmin]
      · intro t ht
        have ht0 : t = 0 := by
          simp only [List.length_singleton] at ht
          omega
        subst ht0
        simp
      · intro t ht
        simp only [List.length_singleton] at ht
        omega
      · intro j hj1 hj2
        exact ⟨(w * i, n), by simp, hj1, hj2⟩

theorem natLoop_top (w o n : ℕ) (hw1 : 1 ≤ w) (ho1 : 1 ≤ o) :
    ∃ rs, natLoop w o n (n + 2) 0 = some rs ∧
      rs ≠ [] ∧
      (∀ t, t < rs.length → (rs.getD t (0, 0)).1 = w * t) ∧
      (∀ t, t + 1 < rs.length → (rs.getD t (0, 0)).2 = w * t + (w + o)) ∧
      (rs.getD (rs.length - 1) (0, 0)).2 = n ∧
      (∀ j, j < n → ∃ r ∈ rs, r.1 ≤ j ∧ j < r.2) := by
  have h2 : n ≤ w * (0 + (n + 2) - 1) := by
    have hidx : 0 + (n + 2) - 1 = n + 1 := by omega
    rw [hidx]
    calc n ≤ n + 1 := by omega
      _ = (n + 1) * 1 := by ring
      _ ≤ (n + 1) * w := Nat.mul_le_mul_left _ hw1
      _ = w * (n + 1) := by ring
  obtain ⟨rs, hrs, hne, hst, hen, hla, hcov⟩ :=
    natLoop_spec w o n hw1 ho1 (n + 2) 0 (by omega) h2 (by simp)
  exact ⟨rs, hrs, hne,
    fun t ht => by simpa using hst t ht,
    fun t ht => by simpa using hen t ht,
    hla,
    fun j hj => hcov j (by simp) hj⟩

/-- C2: for every waveform longer than `per + OVERLAP` seconds (in a
sample-aligned configuration: the stride `(per - OVERLAP) * sr = w` and the
overlap `OVERLAP * sr = o` are whole positive numbers of samples, as in
every real configuration of the source), the emitted windows cover the
sample range `[0, n)` with no gaps, and every pair of consecutive full
windows (all windows except the final tail are full) overlaps by exactly
`OVERLAP` seconds of signal, i.e. `OVERLAP * sr` samples. -/
theorem claim_C2_window_coverage_and_overlap (sr : ℕ) (per : ℚ) (n w o : ℕ)
    (hw : (sr : ℚ) * (per - OVERLAP) = (w : ℚ))
    (ho : OVERLAP * (sr : ℚ) = (o : ℚ))
    (hw1 : 1 ≤ w) (ho1 : 1 ≤ o)
    (hn : (per + OVERLAP) * (sr : ℚ) < (n : ℚ)) :
    (∀ j, j < n → ∃ r ∈ cutRanges sr per n, r.1 ≤ j ∧ j < r.2) ∧
    (∀ t, t + 3 ≤ (cutRanges sr per n).length →
      ((cutRanges sr per n).getD (t + 1) (0, 0)).1 <
        ((cutRanges sr per n).getD t (0, 0)).2 ∧
      ((((cutRanges sr per n).getD t (0, 0)).2 -
          ((cutRanges sr per n).getD (t + 1) (0, 0)).1 : ℕ) : ℚ) =
        OVERLAP * (sr : ℚ)) := by
  obtain ⟨rs, hrs, hne, hst, hen, hla, hcov⟩ := natLoop_top w o n hw1 ho1
  have hcr : cutRanges sr per n = rs := by
    rw [cutRanges, cutLoop_eq_natLoop sr per w o hw ho (n + 2) 0 n, hrs]
    rfl
  rw [hcr]
  refine ⟨hcov, ?_⟩
  intro t ht
  have h2 : t + 1 < rs.length := by omega
  have hstT := hst (t + 1) h2
  have henT := hen t h2
  have e1 : w * (t + 1) = w * t + w := by ring
  constructor
  · rw [hstT, henT, e1]
    linarith
  · rw [hstT, henT, e1]
    have e2 : w * t + (w + o) - (w * t + w) = o := by omega
    rw [e2, ho]

/-- C2 witness: the sample-aligned configuration `sr = 10`, `per = 1`
(stride 7, overlap 3) on a 30-sample waveform. -/
theorem claim_C2_witness :
    (∀ j, j < 30 → ∃ r ∈ cutRanges 10 1 30, r.1 ≤ j ∧ j < r.2) ∧
    (∀ t, t + 3 ≤ (cutRanges 10 1 30).length →
      ((cutRanges 10 1 30).getD (t + 1) (0, 0)).1 <
        ((cutRanges 10 1 30).getD t (0, 0)).2 ∧
      ((((cutRanges 10 1 30).getD t (0, 0)).2 -
          ((cutRanges 10 1 30).getD (t + 1) (0, 0)).1 : ℕ) : ℚ) =
        OVERLAP * ((10 : ℕ) : ℚ)) :=
  claim_C2_window_coverage_and_overlap 10 1 30 7 3
    (by push_cast; norm_num [OVERLAP])
    (by push_cast; norm_num [OVERLAP])
    (by norm_num) (by norm_num)
    (by push_cast; norm_num [OVERLAP])

/-- C3: for every waveform strictly shorter than `per + OVERLAP` seconds,
the window cutter emits exactly one window, and that window is the entire
input waveform. -/
theorem claim_C3_short_input_single_window (sr : ℕ) (per : ℚ) (xs : List ℚ)
    (hn : ((xs.length : ℕ) : ℚ) < (per + OVERLAP) * (sr : ℚ)) :
    cutWindows sr per xs = [xs] := by
  have h0 : natFloor ((sr : ℚ) * (per - OVERLAP) * ((0 : ℕ) : ℚ)) = 0 := by
    rw [show (sr : ℚ) * (per - OVERLAP) * ((0 : ℕ) : ℚ) = ((0 : ℕ) : ℚ) by
      push_cast; ring]
    exact natFloor_natCast 0
  have hcr : cutRanges sr per xs.length = [(0, xs.length)] := by
    rw [cutRanges, show xs.length + 2 = (xs.length + 1) + 1 from rfl, cutLoop]
    simp only [h0, Nat.sub_zero]
    rw [if_neg (by exact fun h => absurd hn (not_lt.mpr (le_of_lt h)))]
    simp
  rw [cutWindows, hcr]
  simp [sliceR]

/-- C3 witness: a 3-sample waveform at `sr = 10`, `per = 1` (the bound
`per + OVERLAP` seconds is 13 samples). -/
theorem claim_C3_witness : cutWindows 10 1 [1, 2, 3] = [[1, 2, 3]] :=
  claim_C3_short_input_single_window 10 1 [1, 2, 3]
    (by push_cast; norm_num [OVERLAP])

/-! ### Lemmas about `absPeak` -/

theorem le_foldl_max (l : List ℚ) : ∀ acc : ℚ, acc ≤ l.foldl max acc := by
  induction l with
  | nil => intro acc; exact le_refl acc
  | cons a t ih =>
    intro acc
    exact le_trans (le_max_left acc a) (ih (max acc a))

theorem foldl_max_le (l : List ℚ) (B : ℚ) :
    ∀ acc, acc ≤ B → (∀ x ∈ l, x ≤ B) → l.foldl max acc ≤ B := by
  induction l with
  | nil => intro acc hacc _; exact hacc
  | cons a t ih =>
    intro acc hacc hmem
    exact ih (max acc a) (max_le hacc (hmem a (by simp)))
      (fun x hx => hmem x (by simp [hx]))

theorem mem_le_foldl_max (l : List ℚ) (x : ℚ) (hx : x ∈ l) :
    ∀ acc, x ≤ l.foldl max acc := by
  induction l with
  | nil => cases hx
  | cons a t ih =>
    intro acc
    rcases List.mem_cons.mp hx with rfl | hx'
    · exact le_trans (le_max_right acc x) (le_foldl_max t (max acc x))
    · exact ih hx' (max acc a)

theorem absPeak_nonneg (l : List ℚ) : 0 ≤ absPeak l :=
  le_foldl_max (l.map (fun a => |a|)) 0

theorem abs_le_absPeak {l : List ℚ} {x : ℚ} (hx : x ∈ l) : |x| ≤ absPeak l :=
  mem_le_foldl_max (l.map (fun a => |a|)) |x| (List.mem_map.mpr ⟨x, hx, rfl⟩) 0

theorem absPeak_le {l : List ℚ} {B : ℚ} (hB : 0 ≤ B) (h : ∀ x ∈ l, |x| ≤ B) :
    absPeak l ≤ B := by
  apply foldl_max_le _ _ _ hB
  intro y hy
  obtain ⟨x, hx, rfl⟩ := List.mem_map.mp hy
  exact h x hx

/-! ### The normalizer -/

/-- C4: for every window with absolute peak at most `2.5`, the normalizer
returns the rescaled window `(audio / peak * (MAX_AMPLITUDE * ALPHA)) +
(1 - ALPHA) * audio` whose absolute peak is bounded by
`0.9 + (1 - ALPHA) * peak`; for every window with peak strictly greater
than `2.5` it rejects the window and the segment writer produces no
artifact for it.  (At peak `= 0` the rational model evaluates the
unguarded division as `x / 0 = 0`; see C10 for that hazard.) -/
theorem claim_C4_normalizer_bound_and_rejection (E : Ext) (sr : ℕ)
    (a : List ℚ) (idx0 idx1 : ℕ) :
    (absPeak a ≤ 5 / 2 →
      _normalize_audio a =
        some (a.map (fun x => x / absPeak a * (MAX_AMPLITUDE * ALPHA) + (1 - ALPHA) * x)) ∧
      absPeak (a.map (fun x => x / absPeak a * (MAX_AMPLITUDE * ALPHA) + (1 - ALPHA) * x)) ≤
        9 / 10 + (1 - ALPHA) * absPeak a) ∧
    (5 / 2 < absPeak a →
      _normalize_audio a = none ∧
      (process_audio_segment E sr a idx0 idx1 true).1 = []) := by
  constructor
  · intro hle
    have hM0 : 0 ≤ absPeak a := absPeak_nonneg a
    constructor
    · simp only [_normalize_audio]
      rw [if_neg (not_lt.mpr hle)]
    · apply absPeak_le
      · norm_num [ALPHA]
        linarith
      · intro y hy
        obtain ⟨x, hx, rfl⟩ := List.mem_map.mp hy
        have hxM : |x| ≤ absPeak a := abs_le_absPeak hx
        rcases eq_or_lt_of_le hM0 with hM0' | hMpos
        · have hx0 : x = 0 :=
            abs_eq_zero.mp (le_antisymm (hM0' ▸ hxM) (abs_nonneg x))
          subst hx0
          simp [MAX_AMPLITUDE, ALPHA]
          linarith
        · have habs : |x / absPeak a * (MAX_AMPLITUDE * ALPHA) + (1 - ALPHA) * x| ≤
              |x| / absPeak a * (MAX_AMPLITUDE * ALPHA) + (1 - ALPHA) * |x| := by
            calc |x / absPeak a * (MAX_AMPLITUDE * ALPHA) + (1 - ALPHA) * x|
                ≤ |x / absPeak a * (MAX_AMPLITUDE * ALPHA)| + |(1 - ALPHA) * x| :=
                  abs_add _ _
              _ = |x| / absPeak a * (MAX_AMPLITUDE * ALPHA) + (1 - ALPHA) * |x| := by
                  rw [abs_mul (x / absPeak a) (MAX_AMPLITUDE * ALPHA),
                    abs_mul (1 - ALPHA) x, abs_div, abs_of_pos hMpos,
                    abs_of_nonneg (show (0 : ℚ) ≤ MAX_AMPLITUDE * ALPHA by
                      norm_num [MAX_AMPLITUDE, ALPHA]),
                    abs_of_nonneg (show (0 : ℚ) ≤ 1 - ALPHA by norm_num [ALPHA])]
          have hdiv : |x| / absPeak a ≤ 1 := (div_le_one hMpos).mpr hxM
          have h1 : |x| / absPeak a * (MAX_AMPLITUDE * ALPHA) ≤ MAX_AMPLITUDE * ALPHA := by
            have := mul_le_mul_of_nonneg_right hdiv
              (show (0 : ℚ) ≤ MAX_AMPLITUDE * ALPHA by norm_num [MAX_AMPLITUDE, ALPHA])
            linarith
          have h2 : (1 - ALPHA) * |x| ≤ (1 - ALPHA) * absPeak a :=
            mul_le_mul_of_nonneg_left hxM (show (0 : ℚ) ≤ 1 - ALPHA by norm_num [ALPHA])
          have h3 : MAX_AMPLITUDE * ALPHA ≤ 9 / 10 := by norm_num [MAX_AMPLITUDE, ALPHA]
          linarith
  · intro hgt
    have h1 : _normalize_audio a = none := by
      simp only [_normalize_audio]
      rw [if_pos hgt]
    refine ⟨h1, ?_⟩
    simp [process_audio_segment, h1]

/-- C4 witness: the window `[2]` (peak 2) is accepted with the stated
bound; the window `[3]` (peak 3) is rejected with no artifact written. -/
theorem claim_C4_witness :
    (_normalize_audio [2] =
      some ([2].map (fun x => x / absPeak [2] * (MAX_AMPLITUDE * ALPHA) + (1 - ALPHA) * x)) ∧
      absPeak ([2].map (fun x => x / absPeak [2] * (MAX_AMPLITUDE * ALPHA) + (1 - ALPHA) * x)) ≤
        9 / 10 + (1 - ALPHA) * absPeak [2]) ∧
    (_normalize_audio [3] = none ∧
      (process_audio_segment extBase 40000 [3] 0 0 true).1 = []) := by
  have h2 : absPeak [2] ≤ 5 / 2 := by
    apply absPeak_le (by norm_num)
    intro x hx
    simp at hx
    subst hx
    rw [abs_of_nonneg (by norm_num)]
    norm_num
  have h3 : (5 : ℚ) / 2 < absPeak [3] := by
    have hm : |(3 : ℚ)| ≤ absPeak [3] := abs_le_absPeak (by simp)
    rw [abs_of_nonneg (by norm_num)] at hm
    linarith
  exact ⟨(claim_C4_normalizer_bound_and_rejection extBase 40000 [2] 0 0).1 h2,
    (claim_C4_normalizer_bound_and_rejection extBase 40000 [3] 0 0).2 h3⟩

/-- C10: the normalizer's rejection test checks only `peak > 2.5`, so for
a (nonempty) all-zero window the rejection branch is not taken and the
division runs with divisor `0` — there is no nonzero-peak guard.  (In the
source, `numpy` evaluates `0 / 0` to NaN with a runtime warning; the
rational model evaluates `x / 0` to `0`.) -/
theorem claim_C10_zero_peak_division_unguarded (a : List ℚ) (ha : a ≠ [])
    (h0 : ∀ x ∈ a, x = 0) :
    absPeak a = 0 ∧ ¬(absPeak a > 5 / 2) ∧
      _normalize_audio a =
        some (a.map (fun x => x / 0 * (MAX_AMPLITUDE * ALPHA) + (1 - ALPHA) * x)) := by
  have hpk : absPeak a = 0 := by
    refine le_antisymm (absPeak_le (le_refl 0) ?_) (absPeak_nonneg a)
    intro x hx
    rw [h0 x hx]
    simp
  refine ⟨hpk, by rw [hpk]; norm_num, ?_⟩
  simp only [_normalize_audio, hpk]
  rw [if_neg (by norm_num)]

/-- C10 witness: the single-sample all-zero window `[0]`. -/
theorem claim_C10_witness :
    absPeak [(0 : ℚ)] = 0 ∧ ¬(absPeak [(0 : ℚ)] > 5 / 2) ∧
      _normalize_audio [(0 : ℚ)] =
        some ([(0 : ℚ)].map (fun x => x / 0 * (MAX_AMPLITUDE * ALPHA) + (1 - ALPHA) * x)) :=
  claim_C10_zero_peak_division_unguarded [0] (by simp) (by simp)

/-! ### The dual-rate writer -/

/-- C5 counterexample: an environment whose 16 kHz write raises after the
native-rate write succeeded.  The window key `(0, 0)` reaches the writer,
the native-rate artifact is written, the 16 kHz one is not: exactly one
artifact exists for the key afterwards, refuting the unqualified "both
artifacts or neither". -/
theorem claim_C5_counterexample :
    gtIdxs (process_audio_segment extGtOnly 10 [1] 0 0 false).1 = [0] ∧
    k16Idxs (process_audio_segment extGtOnly 10 [1] 0 0 false).1 = [] ∧
    (process_audio_segment extGtOnly 10 [1] 0 0 false).2 = false :=
  ⟨rfl, rfl, rfl⟩

/-- C5 (amended): for every window key that reaches the writer, a window
rejected by normalization yields neither artifact; whenever the writer
returns success, either nothing was written (rejection) or both artifacts
exist, sharing the key `(idx0, idx1)`; and on a write failure either
nothing was written (the native-rate write failed) or exactly the
native-rate artifact remains — the 16 kHz write failed after it, the
failure aborting the file's processing.  "Both artifacts or neither" thus
holds except when the 16 kHz write fails between the two writes. -/
theorem claim_C5_artifact_pairing (E : Ext) (sr : ℕ) (a : List ℚ)
    (idx0 idx1 : ℕ) (pe : Bool) :
    (pe = true → 5 / 2 < absPeak a →
      (process_audio_segment E sr a idx0 idx1 pe).1 = []) ∧
    ((process_audio_segment E sr a idx0 idx1 pe).2 = true →
      (process_audio_segment E sr a idx0 idx1 pe).1 = [] ∨
      ∃ na, (process_audio_segment E sr a idx0 idx1 pe).1 =
        [⟨Dir.gt, idx0, idx1, sr, na⟩,
         ⟨Dir.k16, idx0, idx1, SAMPLE_RATE_16K, E.resample na sr SAMPLE_RATE_16K⟩]) ∧
    ((process_audio_segment E sr a idx0 idx1 pe).2 = false →
      (process_audio_segment E sr a idx0 idx1 pe).1 = [] ∨
      ∃ na, E.writeOk ⟨Dir.gt, idx0, idx1, sr, na⟩ = true ∧
        E.writeOk ⟨Dir.k16, idx0, idx1, SAMPLE_RATE_16K,
          E.resample na sr SAMPLE_RATE_16K⟩ = false ∧
        (process_audio_segment E sr a idx0 idx1 pe).1 =
          [⟨Dir.gt, idx0, idx1, sr, na⟩]) := by
  refine ⟨?_, ?_, ?_⟩
  · intro hpe hpk
    subst hpe
    have h1 : _normalize_audio a = none := by
      simp only [_normalize_audio]
      rw [if_pos hpk]
    simp [process_audio_segment, h1]
  · intro hok
    rcases hN : (if pe then _normalize_audio a else some a) with _ | na
    · left
      simp [process_audio_segment, hN]
    · by_cases h1 : E.writeOk ⟨Dir.gt, idx0, idx1, sr, na⟩ = true
      · by_cases h2 : E.writeOk
            ⟨Dir.k16, idx0, idx1, SAMPLE_RATE_16K, E.resample na sr SAMPLE_RATE_16K⟩ = true
        · right
          exact ⟨na, by simp [process_audio_segment, hN, h1, h2]⟩
        · exfalso
          have hf : (process_audio_segment E sr a idx0 idx1 pe).2 = false := by
            simp [process_audio_segment, hN, h1, h2]
          rw [hf] at hok
          simp at hok
      · exfalso
        have hf : (process_audio_segment E sr a idx0 idx1 pe).2 = false := by
          simp [process_audio_segment, hN, h1]
        rw [hf] at hok
        simp at hok
  · intro hfail
    rcases hN : (if pe then _normalize_audio a else some a) with _ | na
    · exfalso
      have ht : (process_audio_segment E sr a idx0 idx1 pe).2 = true := by
        simp [process_audio_segment, hN]
      rw [ht] at hfail
      simp at hfail
    · by_cases h1 : E.writeOk ⟨Dir.gt, idx0, idx1, sr, na⟩ = true
      · by_cases h2 : E.writeOk
            ⟨Dir.k16, idx0, idx1, SAMPLE_RATE_16K, E.resample na sr SAMPLE_RATE_16K⟩ = true
        · exfalso
          have ht : (process_audio_segment E sr a idx0 idx1 pe).2 = true := by
            simp [process_audio_segment, hN, h1, h2]
          rw [ht] at hfail
          simp at hfail
        · right
          have h2f : E.writeOk
              ⟨Dir.k16, idx0, idx1, SAMPLE_RATE_16K, E.resample na sr SAMPLE_RATE_16K⟩ =
                false := by
            simpa using h2
          exact ⟨na, h1, h2f, by simp [process_audio_segment, hN, h1, h2]⟩
      · left
        simp [process_audio_segment, hN, h1]

/-- C5 witness: the theorem applied to the accepted window `[1]` under the
benign environment, where the writer succeeds: both artifacts exist with
the shared key `(0, 0)`. -/
theorem claim_C5_witness :
    (process_audio_segment extBase 40000 [1] 0 0 false).1 = [] ∨
    ∃ na, (process_audio_segment extBase 40000 [1] 0 0 false).1 =
      [⟨Dir.gt, 0, 0, 40000, na⟩,
       ⟨Dir.k16, 0, 0, SAMPLE_RATE_16K, extBase.resample na 40000 SAMPLE_RATE_16K⟩] :=
  (claim_C5_artifact_pairing extBase 40000 [1] 0 0 false).2.1 rfl

/-! ### Write-index bookkeeping for the cutting loops -/

theorem gtIdxs_append (l1 l2 : List Write) :
    gtIdxs (l1 ++ l2) = gtIdxs l1 ++ gtIdxs l2 := by
  simp [gtIdxs]

theorem k16Idxs_append (l1 l2 : List Write) :
    k16Idxs (l1 ++ l2) = k16Idxs l1 ++ k16Idxs l2 := by
  simp [k16Idxs]

/-- Whatever the segment writer does for one window, the native-rate and
16 kHz artifacts it writes carry exactly the window index `j`. -/
theorem paseg_sub (E : Ext) (sr : ℕ) (a : List ℚ) (idx0 j : ℕ) (pe : Bool) :
    List.Sublist (gtIdxs (process_audio_segment E sr a idx0 j pe).1) [j] ∧
    List.Sublist (k16Idxs (process_audio_segment E sr a idx0 j pe).1) [j] := by
  rcases hN : (if pe then _normalize_audio a else some a) with _ | na
  · constructor <;> simp [process_audio_segment, hN, gtIdxs, k16Idxs]
  · by_cases h1 : E.writeOk ⟨Dir.gt, idx0, j, sr, na⟩
    · by_cases h2 : E.writeOk
          ⟨Dir.k16, idx0, j, SAMPLE_RATE_16K, E.resample na sr SAMPLE_RATE_16K⟩
      · constructor <;> simp [process_audio_segment, hN, h1, h2, gtIdxs, k16Idxs]
      · constructor <;> simp [process_audio_segment, hN, h1, h2, gtIdxs, k16Idxs]
    · constructor <;> simp [process_audio_segment, hN, h1, gtIdxs, k16Idxs]

/-- When every write succeeds and the window is not rejected (always the
case when normalization is disabled), the segment writer succeeds and
writes exactly one artifact at index `j` into each directory. -/
theorem paseg_accept (E : Ext) (sr : ℕ) (a : List ℚ) (idx0 j : ℕ) (pe : Bool)
    (hW : ∀ w, E.writeOk w = true)
    (hacc : pe = true → ¬(5 / 2 < absPeak a)) :
    (process_audio_segment E sr a idx0 j pe).2 = true ∧
    gtIdxs (process_audio_segment E sr a idx0 j pe).1 = [j] ∧
    k16Idxs (process_audio_segment E sr a idx0 j pe).1 = [j] := by
  cases pe with
  | false =>
    refine ⟨?_, ?_, ?_⟩ <;> simp [process_audio_segment, hW, gtIdxs, k16Idxs]
  | true =>
    have hsome : _normalize_audio a =
        some (a.map (fun x => x / absPeak a * (MAX_AMPLITUDE * ALPHA) + (1 - ALPHA) * x)) := by
      simp only [_normalize_audio]
      rw [if_neg (hacc rfl)]
    refine ⟨?_, ?_, ?_⟩ <;>
      simp [process_audio_segment, hsome, hW, gtIdxs, k16Idxs]

/-- Invariant of the window loop over one segment: write indices in each
directory are strictly increasing, at least the incoming index `j`, at
most the returned index `J`, and strictly below `J` when the loop
succeeded. -/
theorem segmentLoop_inc (E : Ext) (sr : ℕ) (per : ℚ) (seg : List ℚ)
    (idx0 : ℕ) (pe : Bool) :
    ∀ fuel i j ws J ok, segmentLoop E sr per seg idx0 pe fuel i j = (ws, J, ok) →
      j ≤ J ∧
      List.Pairwise (· < ·) (gtIdxs ws) ∧
      List.Pairwise (· < ·) (k16Idxs ws) ∧
      (∀ x ∈ gtIdxs ws, j ≤ x ∧ x ≤ J ∧ (ok = true → x < J)) ∧
      (∀ x ∈ k16Idxs ws, j ≤ x ∧ x ≤ J ∧ (ok = true → x < J)) := by
  intro fuel
  induction fuel with
  | zero =>
    intro i j ws J ok heq
    rw [segmentLoop] at heq
    simp only [Prod.mk.injEq] at heq
    obtain ⟨rfl, rfl, rfl⟩ := heq
    refine ⟨le_refl j, ?_, ?_, ?_, ?_⟩ <;> simp [gtIdxs, k16Idxs]
  | succ f ih =>
    intro i j ws J ok heq
    simp only [segmentLoop] at heq
    by_cases hc : ((seg.drop (natFloor ((sr : ℚ) * (per - OVERLAP) * i))).length : ℚ) >
        (per + OVERLAP) * (sr : ℚ)
    · rw [if_pos hc] at heq
      have hsub := paseg_sub E sr
        ((seg.drop (natFloor ((sr : ℚ) * (per - OVERLAP) * i))).take (natFloor (per * (sr : ℚ))))
        idx0 j pe
      have hmemg : ∀ x ∈ gtIdxs (process_audio_segment E sr
          ((seg.drop (natFloor ((sr : ℚ) * (per - OVERLAP) * i))).take (natFloor (per * (sr : ℚ))))
          idx0 j pe).1, x = j := by
        intro x hx
        have := hsub.1.subset hx
        simpa using this
      have hmemk : ∀ x ∈ k16Idxs (process_audio_segment E sr
          ((seg.drop (natFloor ((sr : ℚ) * (per - OVERLAP) * i))).take (natFloor (per * (sr : ℚ))))
          idx0 j pe).1, x = j := by
        intro x hx
        have := hsub.2.subset hx
        simpa using this
      have hpwg : List.Pairwise (· < ·) (gtIdxs (process_audio_segment E sr
          ((seg.drop (natFloor ((sr : ℚ) * (per - OVERLAP) * i))).take (natFloor (per * (sr : ℚ))))
          idx0 j pe).1) :=
        List.Pairwise.sublist hsub.1 (by simp)
      have hpwk : List.Pairwise (· < ·) (k16Idxs (process_audio_segment E sr
          ((seg.drop (natFloor ((sr : ℚ) * (per - OVERLAP) * i))).take (natFloor (per * (sr : ℚ))))
          idx0 j pe).1) :=
        List.Pairwise.sublist hsub.2 (by simp)
      by_cases h2 : (process_audio_segment E sr
          ((seg.drop (natFloor ((sr : ℚ) * (per - OVERLAP) * i))).take (natFloor (per * (sr : ℚ))))
          idx0 j pe).2 = true
      · rw [if_pos h2] at heq
        rcases hrest : segmentLoop E sr per seg idx0 pe f (i + 1) (j + 1) with ⟨ws', J', ok'⟩
        rw [hrest] at heq
        simp only [Prod.mk.injEq] at heq
        obtain ⟨rfl, rfl, rfl⟩ := heq
        obtain ⟨ih1, ih2, ih3, ih4, ih5⟩ := ih (i + 1) (j + 1) ws' J' ok' hrest
        refine ⟨by omega, ?_, ?_, ?_, ?_⟩
        · rw [gtIdxs_append, List.pairwise_append]
          exact ⟨hpwg, ih2, fun a ha b hb => by
            have ha' := hmemg a ha
            have hb' := (ih4 b hb).1
            omega⟩
        · rw [k16Idxs_append, List.pairwise_append]
          exact ⟨hpwk, ih3, fun a ha b hb => by
            have ha' := hmemk a ha
            have hb' := (ih5 b hb).1
            omega⟩
        · rw [gtIdxs_append]
          intro x hx
          rcases List.mem_append.mp hx with hx' | hx'
          · have := hmemg x hx'
            subst this
            exact ⟨le_refl x, by omega, fun _ => by omega⟩
          · have := ih4 x hx'
            exact ⟨by omega, this.2.1, this.2.2⟩
        · rw [k16Idxs_append]
          intro x hx
          rcases List.mem_append.mp hx with hx' | hx'
          · have := hmemk x hx'
            subst this
            exact ⟨le_refl x, by omega, fun _ => by omega⟩
          · have := ih5 x hx'
            exact ⟨by omega, this.2.1, this.2.2⟩
      · rw [if_neg h2] at heq
        simp only [Prod.mk.injEq] at heq
        obtain ⟨rfl, rfl, rfl⟩ := heq
        refine ⟨le_refl j, hpwg, hpwk, ?_, ?_⟩
        · intro x hx
          have := hmemg x hx
          subst this
          exact ⟨le_refl x, le_refl x, fun h => by simp at h⟩
        · intro x hx
          have := hmemk x hx
          subst this
          exact ⟨le_refl x, le_refl x, fun h => by simp at h⟩
    · rw [if_neg hc] at heq
      have hsub := paseg_sub E sr
        (seg.drop (natFloor ((sr : ℚ) * (per - OVERLAP) * i))) idx0 j pe
      have hmemg : ∀ x ∈ gtIdxs (process_audio_segment E sr
          (seg.drop (natFloor ((sr : ℚ) * (per - OVERLAP) * i))) idx0 j pe).1, x = j := by
        intro x hx
        have := hsub.1.subset hx
        simpa using this
      have hmemk : ∀ x ∈ k16Idxs (process_audio_segment E sr
          (seg.drop (natFloor ((sr : ℚ) * (per - OVERLAP) * i))) idx0 j pe).1, x = j := by
        intro x hx
        have := hsub.2.subset hx
        simpa using this
      have hpwg : List.Pairwise (· < ·) (gtIdxs (process_audio_segment E sr
          (seg.drop (natFloor ((sr : ℚ) * (per - OVERLAP) * i))) idx0 j pe).1) :=
        List.Pairwise.sublist hsub.1 (by simp)
      have hpwk : List.Pairwise (· < ·) (k16Idxs (process_audio_segment E sr
          (seg.drop (natFloor ((sr : ℚ) * (per - OVERLAP) * i))) idx0 j pe).1) :=
        List.Pairwise.sublist hsub.2 (by simp)
      by_cases h2 : (process_audio_segment E sr
          (seg.drop (natFloor ((sr : ℚ) * (per - OVERLAP) * i))) idx0 j pe).2 = true
      · rw [if_pos h2] at heq
        simp only [Prod.mk.injEq] at heq
        obtain ⟨rfl, rfl, rfl⟩ := heq
        refine ⟨by omega, hpwg, hpwk, ?_, ?_⟩
        · intro x hx
          have := hmemg x hx
          subst this
          exact ⟨le_refl x, by omega, fun _ => by omega⟩
        · intro x hx
          have := hmemk x hx
          subst this
          exact ⟨le_refl x, by omega, fun _ => by omega⟩
      · rw [if_neg h2] at heq
        simp only [Prod.mk.injEq] at heq
        obtain ⟨rfl, rfl, rfl⟩ := heq
        refine ⟨le_refl j, hpwg, hpwk, ?_, ?_⟩
        · intro x hx
          have := hmemg x hx
          subst this
          exact ⟨le_refl x, le_refl x, fun h => by simp at h⟩
        · intro x hx
          have := hmemk x hx
          subst this
          exact ⟨le_refl x, le_refl x, fun h => by simp at h⟩

/-- The invariant of `segmentLoop_inc` lifted across all segments of one
file. -/
theorem segmentsLoop_inc (E : Ext) (sr : ℕ) (per : ℚ) (idx0 : ℕ) (pe : Bool) :
    ∀ segs j ws J ok, segmentsLoop E sr per idx0 pe segs j = (ws, J, ok) →
      j ≤ J ∧
      List.Pairwise (· < ·) (gtIdxs ws) ∧
      List.Pairwise (· < ·) (k16Idxs ws) ∧
      (∀ x ∈ gtIdxs ws, j ≤ x ∧ x ≤ J ∧ (ok = true → x < J)) ∧
      (∀ x ∈ k16Idxs ws, j ≤ x ∧ x ≤ J ∧ (ok = true → x < J)) := by
  intro segs
  induction segs with
  | nil =>
    intro j ws J ok heq
    rw [segmentsLoop] at heq
    simp only [Prod.mk.injEq] at heq
    obtain ⟨rfl, rfl, rfl⟩ := heq
    refine ⟨le_refl j, ?_, ?_, ?_, ?_⟩ <;> simp [gtIdxs, k16Idxs]
  | cons seg rest ih =>
    intro j ws J ok heq
    simp only [segmentsLoop] at heq
    rcases h1 : segmentLoop E sr per seg idx0 pe (seg.length + 2) 0 j with ⟨ws1, J1, ok1⟩
    rw [h1] at heq
    obtain ⟨s1, s2, s3, s4, s5⟩ :=
      segmentLoop_inc E sr per seg idx0 pe (seg.length + 2) 0 j ws1 J1 ok1 h1
    dsimp only at heq
    cases ok1 with
    | false =>
      rw [if_neg (by simp)] at heq
      simp only [Prod.mk.injEq] at heq
      obtain ⟨rfl, rfl, rfl⟩ := heq
      exact ⟨s1, s2, s3, s4, s5⟩
    | true =>
      rw [if_pos rfl] at heq
      rcases h2 : segmentsLoop E sr per idx0 pe rest J1 with ⟨ws2, J2, ok2⟩
      rw [h2] at heq
      dsimp only at heq
      simp only [Prod.mk.injEq] at heq
      obtain ⟨rfl, rfl, rfl⟩ := heq
      obtain ⟨t1, t2, t3, t4, t5⟩ := ih J1 ws2 J2 ok2 h2
      refine ⟨by omega, ?_, ?_, ?_, ?_⟩
      · rw [gtIdxs_append, List.pairwise_append]
        exact ⟨s2, t2, fun a ha b hb => by
          have ha' := (s4 a ha).2.2 rfl
          have hb' := (t4 b hb).1
          omega⟩
      · rw [k16Idxs_append, List.pairwise_append]
        exact ⟨s3, t3, fun a ha b hb => by
          have ha' := (s5 a ha).2.2 rfl
          have hb' := (t5 b hb).1
          omega⟩
      · rw [gtIdxs_append]
        intro x hx
        rcases List.mem_append.mp hx with hx' | hx'
        · have h := s4 x hx'
          have hlt := h.2.2 rfl
          exact ⟨h.1, by omega, fun _ => by omega⟩
        · have h := t4 x hx'
          exact ⟨by omega, h.2.1, h.2.2⟩
      · rw [k16Idxs_append]
        intro x hx
        rcases List.mem_append.mp hx with hx' | hx'
        · have h := s5 x hx'
          have hlt := h.2.2 rfl
          exact ⟨h.1, by omega, fun _ => by omega⟩
        · have h := t5 x hx'
          exact ⟨by omega, h.2.1, h.2.2⟩

/-- When every write succeeds and no window along the loop is rejected
(in particular whenever normalization is disabled), the window loop over
one segment succeeds and writes one artifact pair per emitted window, at
the consecutive indices `j, j+1, ...`. -/
theorem segmentLoop_accept (E : Ext) (sr : ℕ) (per : ℚ) (seg : List ℚ)
    (idx0 : ℕ) (pe : Bool) (hW : ∀ w, E.writeOk w = true)
    (hacc : pe = true → ∀ s t, ¬(5 / 2 < absPeak ((seg.drop s).take t)))
    (hacc2 : pe = true → ∀ s, ¬(5 / 2 < absPeak (seg.drop s))) :
    ∀ fuel i j ws J ok, segmentLoop E sr per seg idx0 pe fuel i j = (ws, J, ok) →
      ok = true ∧ j ≤ J ∧ gtIdxs ws = List.range' j (J - j) ∧
        k16Idxs ws = List.range' j (J - j) := by
  intro fuel
  induction fuel with
  | zero =>
    intro i j ws J ok heq
    rw [segmentLoop] at heq
    simp only [Prod.mk.injEq] at heq
    obtain ⟨rfl, rfl, rfl⟩ := heq
    refine ⟨rfl, le_refl j, ?_, ?_⟩ <;> simp [gtIdxs, k16Idxs]
  | succ f ih =>
    intro i j ws J ok heq
    simp only [segmentLoop] at heq
    by_cases hc : ((seg.drop (natFloor ((sr : ℚ) * (per - OVERLAP) * i))).length : ℚ) >
        (per + OVERLAP) * (sr : ℚ)
    · rw [if_pos hc] at heq
      obtain ⟨hok, hg, hk⟩ := paseg_accept E sr
        ((seg.drop (natFloor ((sr : ℚ) * (per - OVERLAP) * i))).take (natFloor (per * (sr : ℚ))))
        idx0 j pe hW (fun hpe => hacc hpe _ _)
      rw [if_pos hok] at heq
      rcases hrest : segmentLoop E sr per seg idx0 pe f (i + 1) (j + 1) with ⟨ws', J', ok'⟩
      rw [hrest] at heq
      dsimp only at heq
      simp only [Prod.mk.injEq] at heq
      obtain ⟨rfl, rfl, rfl⟩ := heq
      obtain ⟨ih1, ih2, ih3, ih4⟩ := ih (i + 1) (j + 1) ws' J' ok' hrest
      refine ⟨ih1, by omega, ?_, ?_⟩
      · rw [gtIdxs_append, hg, ih3,
          show J' - j = (J' - (j + 1)) + 1 by omega, List.range'_succ]
        rfl
      · rw [k16Idxs_append, hk, ih4,
          show J' - j = (J' - (j + 1)) + 1 by omega, List.range'_succ]
        rfl
    · rw [if_neg hc] at heq
      obtain ⟨hok, hg, hk⟩ := paseg_accept E sr
        (seg.drop (natFloor ((sr : ℚ) * (per - OVERLAP) * i))) idx0 j pe hW
        (fun hpe => hacc2 hpe _)
      rw [if_pos hok] at heq
      simp only [Prod.mk.injEq] at heq
      obtain ⟨rfl, rfl, rfl⟩ := heq
      refine ⟨rfl, by omega, ?_, ?_⟩
      · rw [hg, show j + 1 - j = 1 by omega]
        rfl
      · rw [hk, show j + 1 - j = 1 by omega]
        rfl

/-- `segmentLoop_accept` lifted across all segments of one file. -/
theorem segmentsLoop_accept (E : Ext) (sr : ℕ) (per : ℚ) (idx0 : ℕ) (pe : Bool)
    (hW : ∀ w, E.writeOk w = true) :
    ∀ segs, (pe = true → ∀ seg ∈ segs,
        (∀ s t, ¬(5 / 2 < absPeak ((seg.drop s).take t))) ∧
        (∀ s, ¬(5 / 2 < absPeak (seg.drop s)))) →
      ∀ j ws J ok, segmentsLoop E sr per idx0 pe segs j = (ws, J, ok) →
        ok = true ∧ j ≤ J ∧ gtIdxs ws = List.range' j (J - j) ∧
          k16Idxs ws = List.range' j (J - j) := by
  intro segs
  induction segs with
  | nil =>
    intro _ j ws J ok heq
    rw [segmentsLoop] at heq
    simp only [Prod.mk.injEq] at heq
    obtain ⟨rfl, rfl, rfl⟩ := heq
    refine ⟨rfl, le_refl j, ?_, ?_⟩ <;> simp [gtIdxs, k16Idxs]
  | cons seg rest ih =>
    intro hacc j ws J ok heq
    simp only [segmentsLoop] at heq
    rcases h1 : segmentLoop E sr per seg idx0 pe (seg.length + 2) 0 j with ⟨ws1, J1, ok1⟩
    rw [h1] at heq
    obtain ⟨hok1, hle1, hg1, hk1⟩ := segmentLoop_accept E sr per seg idx0 pe hW
      (fun hpe => ((hacc hpe seg (by simp)).1))
      (fun hpe => ((hacc hpe seg (by simp)).2))
      (seg.length + 2) 0 j ws1 J1 ok1 h1
    subst hok1
    dsimp only at heq
    rw [if_pos rfl] at heq
    rcases h2 : segmentsLoop E sr per idx0 pe rest J1 with ⟨ws2, J2, ok2⟩
    rw [h2] at heq
    dsimp only at heq
    simp only [Prod.mk.injEq] at heq
    obtain ⟨rfl, rfl, rfl⟩ := heq
    obtain ⟨hok2, hle2, hg2, hk2⟩ := ih
      (fun hpe s hs => hacc hpe s (by simp [hs])) J1 ws2 J2 ok2 h2
    have e1 : j + (J1 - j) = J1 := by omega
    have e2 : J2 - J1 + (J1 - j) = J2 - j := by omega
    have ecat : List.range' j (J1 - j) ++ List.range' J1 (J2 - J1) =
        List.range' j (J2 - j) :=
      calc List.range' j (J1 - j) ++ List.range' J1 (J2 - J1)
          = List.range' j (J1 - j) ++ List.range' (j + (J1 - j)) (J2 - J1) := by rw [e1]
        _ = List.range' j (J2 - J1 + (J1 - j)) := List.range'_append_1 _ _ _
        _ = List.range' j (J2 - j) := by rw [e2]
    refine ⟨hok2, by omega, ?_, ?_⟩
    · rw [gtIdxs_append, hg1, hg2, ecat]
    · rw [k16Idxs_append, hk1, hk2, ecat]

/-- When every window is accepted and every write succeeds, the window
loop advances the index by exactly the number of windows the cutter emits
(one per range of `cutLoop`) and succeeds. -/
theorem segmentLoop_count (E : Ext) (sr : ℕ) (per : ℚ) (seg : List ℚ)
    (idx0 : ℕ) (pe : Bool) (hW : ∀ w, E.writeOk w = true)
    (hacc : pe = true → ∀ s t, ¬(5 / 2 < absPeak ((seg.drop s).take t)))
    (hacc2 : pe = true → ∀ s, ¬(5 / 2 < absPeak (seg.drop s))) :
    ∀ fuel i j rs, cutLoop sr per seg.length fuel i = some rs →
      (segmentLoop E sr per seg idx0 pe fuel i j).2.1 = j + rs.length ∧
      (segmentLoop E sr per seg idx0 pe fuel i j).2.2 = true := by
  intro fuel
  induction fuel with
  | zero =>
    intro i j rs hcut
    rw [cutLoop] at hcut
    cases hcut
  | succ f ih =>
    intro i j rs hcut
    have hlen : ((seg.drop (natFloor ((sr : ℚ) * (per - OVERLAP) * i))).length : ℚ) =
        ((seg.length - natFloor ((sr : ℚ) * (per - OVERLAP) * i) : ℕ) : ℚ) := by
      rw [List.length_drop]
    simp only [cutLoop] at hcut
    simp only [segmentLoop]
    by_cases hc : ((seg.length - natFloor ((sr : ℚ) * (per - OVERLAP) * i) : ℕ) : ℚ) >
        (per + OVERLAP) * (sr : ℚ)
    · rw [if_pos hc] at hcut
      rw [if_pos (by rw [hlen]; exact hc)]
      obtain ⟨rs', hrs', rfl⟩ := Option.map_eq_some'.mp hcut
      obtain ⟨hok, hg, hk⟩ := paseg_accept E sr
        ((seg.drop (natFloor ((sr : ℚ) * (per - OVERLAP) * i))).take (natFloor (per * (sr : ℚ))))
        idx0 j pe hW (fun hpe => hacc hpe _ _)
      rw [if_pos hok]
      obtain ⟨c1, c2⟩ := ih (i + 1) (j + 1) rs' hrs'
      dsimp only
      rw [c1, c2]
      exact ⟨by simp [List.length_cons]; omega, rfl⟩
    · rw [if_neg hc] at hcut
      rw [if_neg (by rw [hlen]; exact hc)]
      obtain ⟨hok, hg, hk⟩ := paseg_accept E sr
        (seg.drop (natFloor ((sr : ℚ) * (per - OVERLAP) * i))) idx0 j pe hW
        (fun hpe => hacc2 hpe _)
      rw [if_pos hok]
      simp only [Option.some.injEq] at hcut
      subst hcut
      exact ⟨by simp, rfl⟩

/-- C6 (amended): within a single source file, the window indices `idx1`
on written artifacts are strictly increasing in temporal order in each
output directory, spanning all of the file's segments in encounter order;
when normalization is disabled (and no write fails) they are exactly
`0, 1, ..., count - 1`.  With normalization enabled a rejected window
still consumes its index, so written indices need not start at `0` (see
the counterexample). -/
theorem claim_C6_written_indices_increasing (E : Ext) (sr : ℕ) (per : ℚ)
    (path : String) (idx0 : ℕ) (cut pe : Bool) :
    List.Pairwise (· < ·) (gtIdxs (process_audio E sr per path idx0 cut pe).2) ∧
    List.Pairwise (· < ·) (k16Idxs (process_audio E sr per path idx0 cut pe).2) ∧
    (pe = false → (∀ w, E.writeOk w = true) →
      ∃ cnt, gtIdxs (process_audio E sr per path idx0 cut pe).2 = List.range cnt ∧
        k16Idxs (process_audio E sr per path idx0 cut pe).2 = List.range cnt) := by
  rcases hload : E.load_audio path sr with e | audio0
  · have hw : (process_audio E sr per path idx0 cut pe).2 = [] := by
      simp [process_audio, hload]
    rw [hw]
    exact ⟨by simp [gtIdxs, k16Idxs], by simp [gtIdxs, k16Idxs],
      fun _ _ => ⟨0, by simp [gtIdxs, k16Idxs]⟩⟩
  · rcases hfilt : (if pe then E.lfilter audio0 else Except.ok audio0) with e2 | audio
    · have hw : (process_audio E sr per path idx0 cut pe).2 = [] := by
        simp [process_audio, hload, hfilt]
      rw [hw]
      exact ⟨by simp [gtIdxs, k16Idxs], by simp [gtIdxs, k16Idxs],
        fun _ _ => ⟨0, by simp [gtIdxs, k16Idxs]⟩⟩
    · cases cut with
      | false =>
        have hw : (process_audio E sr per path idx0 false pe).2 =
            (process_audio_segment E sr audio idx0 0 pe).1 := by
          simp [process_audio, hload, hfilt]
        rw [hw]
        have hsub := paseg_sub E sr audio idx0 0 pe
        refine ⟨List.Pairwise.sublist hsub.1 (by simp),
          List.Pairwise.sublist hsub.2 (by simp), ?_⟩
        intro hpe hW
        subst hpe
        obtain ⟨_, hg, hk⟩ := paseg_accept E sr audio idx0 0 false hW (by simp)
        exact ⟨1, by rw [hg]; rfl, by rw [hk]; rfl⟩
      | true =>
        rcases hslice : E.slice audio with e3 | segments
        · have hw : (process_audio E sr per path idx0 true pe).2 = [] := by
            simp [process_audio, hload, hfilt, hslice]
          rw [hw]
          exact ⟨by simp [gtIdxs, k16Idxs], by simp [gtIdxs, k16Idxs],
            fun _ _ => ⟨0, by simp [gtIdxs, k16Idxs]⟩⟩
        · rcases hsl : segmentsLoop E sr per idx0 pe segments 0 with ⟨ws, J, ok⟩
          have hw : (process_audio E sr per path idx0 true pe).2 = ws := by
            simp [process_audio, hload, hfilt, hslice, hsl]
          rw [hw]
          obtain ⟨_, p2, p3, _, _⟩ :=
            segmentsLoop_inc E sr per idx0 pe segments 0 ws J ok hsl
          refine ⟨p2, p3, ?_⟩
          intro hpe hW
          subst hpe
          obtain ⟨_, _, hg, hk⟩ := segmentsLoop_accept E sr per idx0 false hW
            segments (by simp) 0 ws J ok hsl
          exact ⟨J, by rw [hg, List.range_eq_range', Nat.sub_zero],
            by rw [hk, List.range_eq_range', Nat.sub_zero]⟩

/-- C6 witness: the benign environment, normalization disabled — one
whole-file window, indices exactly `List.range 1`. -/
theorem claim_C6_witness :
    List.Pairwise (· < ·) (gtIdxs (process_audio extBase 10 1 "a.wav" 0 true false).2) ∧
    List.Pairwise (· < ·) (k16Idxs (process_audio extBase 10 1 "a.wav" 0 true false).2) ∧
    ∃ cnt, gtIdxs (process_audio extBase 10 1 "a.wav" 0 true false).2 = List.range cnt ∧
      k16Idxs (process_audio extBase 10 1 "a.wav" 0 true false).2 = List.range cnt := by
  obtain ⟨h1, h2, h3⟩ :=
    claim_C6_written_indices_increasing extBase 10 1 "a.wav" 0 true false
  exact ⟨h1, h2, h3 rfl (fun _ => rfl)⟩

/-- C6 counterexample: with `sr = 10`, `per = 1` the waveform `segRej` is
cut into a full window `[0, 10)` (peak `3`, rejected by the normalizer,
still consuming index `0`) and the tail `[7, 20)` (peak `1`, accepted).
The only written artifacts carry window index `1`: the indices assigned to
written artifacts do NOT start at `0`, refuting the claim as stated. -/
theorem claim_C6_counterexample :
    gtIdxs (process_audio extRej 10 1 "a.wav" 0 true true).2 = [1] := by
  have e0 : natFloor (((10 : ℕ) : ℚ) * ((1 : ℚ) - OVERLAP) * ((0 : ℕ) : ℚ)) = 0 := by
    rw [show ((10 : ℕ) : ℚ) * ((1 : ℚ) - OVERLAP) * ((0 : ℕ) : ℚ) = ((0 : ℕ) : ℚ) by
      push_cast; ring]
    exact natFloor_natCast 0
  have e1 : natFloor (((10 : ℕ) : ℚ) * ((1 : ℚ) - OVERLAP) * ((1 : ℕ) : ℚ)) = 7 := by
    rw [show ((10 : ℕ) : ℚ) * ((1 : ℚ) - OVERLAP) * ((1 : ℕ) : ℚ) = ((7 : ℕ) : ℚ) by
      push_cast; norm_num [OVERLAP]]
    exact natFloor_natCast 7
  have em : natFloor ((1 : ℚ) * ((10 : ℕ) : ℚ)) = 10 := by
    rw [show (1 : ℚ) * ((10 : ℕ) : ℚ) = ((10 : ℕ) : ℚ) by push_cast; ring]
    exact natFloor_natCast 10
  have hlen : segRej.length = 20 := by simp [segRej]
  have hwin0 : (segRej.drop 0).take 10 = 3 :: List.replicate 9 1 := by
    simp [segRej]
  have htail : segRej.drop 7 = List.replicate 13 1 := by
    simp [segRej]
  have hrej : _normalize_audio (3 :: List.replicate 9 (1 : ℚ)) = none := by
    have h3 : |(3 : ℚ)| ≤ absPeak (3 :: List.replicate 9 1) := abs_le_absPeak (by simp)
    rw [abs_of_nonneg (by norm_num)] at h3
    simp only [_normalize_audio]
    rw [if_pos (by linarith)]
  have hpeak : ¬(5 / 2 < absPeak (List.replicate 13 (1 : ℚ))) := by
    have hb : absPeak (List.replicate 13 (1 : ℚ)) ≤ 1 := by
      apply absPeak_le (by norm_num)
      intro x hx
      rw [List.eq_of_mem_replicate hx]
      norm_num
    linarith
  have hpa0 : process_audio_segment extRej 10 (3 :: List.replicate 9 (1 : ℚ)) 0 0 true =
      ([], true) := by
    simp only [process_audio_segment]
    rw [if_pos trivial, hrej]
  obtain ⟨hok1, hg1, hk1⟩ := paseg_accept extRej 10 (List.replicate 13 (1 : ℚ)) 0 1 true
    (fun _ => rfl) (fun _ => hpeak)
  have hcond0 : ((segRej.drop 0).length : ℚ) > ((1 : ℚ) + OVERLAP) * ((10 : ℕ) : ℚ) := by
    rw [List.drop_zero, hlen]
    push_cast
    norm_num [OVERLAP]
  have hcond1 : ¬(((List.replicate 13 (1 : ℚ)).length : ℚ) >
      ((1 : ℚ) + OVERLAP) * ((10 : ℕ) : ℚ)) := by
    rw [List.length_replicate]
    push_cast
    norm_num [OVERLAP]
  have hstep1 : segmentLoop extRej 10 1 segRej 0 true 21 1 1 =
      ((process_audio_segment extRej 10 (List.replicate 13 (1 : ℚ)) 0 1 true).1, 2, true) := by
    rw [show (21 : ℕ) = 20 + 1 from rfl, segmentLoop]
    dsimp only
    rw [e1, htail, if_neg hcond1, if_pos hok1]
  have hloop : segmentLoop extRej 10 1 segRej 0 true 22 0 0 =
      ((process_audio_segment extRej 10 (List.replicate 13 (1 : ℚ)) 0 1 true).1, 2, true) := by
    rw [show (22 : ℕ) = 21 + 1 from rfl, segmentLoop]
    dsimp only
    rw [e0, if_pos hcond0, em, hwin0, hpa0]
    dsimp only
    rw [if_pos rfl]
    rw [show (0 : ℕ) + 1 = 1 from rfl]
    rw [hstep1]
    dsimp only
    rw [List.nil_append]
  have hsegs : segmentsLoop extRej 10 1 0 true [segRej] 0 =
      ((process_audio_segment extRej 10 (List.replicate 13 (1 : ℚ)) 0 1 true).1, 2, true) := by
    rw [segmentsLoop]
    dsimp only
    rw [hlen, show (20 : ℕ) + 2 = 22 from rfl, hloop]
    dsimp only
    rw [if_pos rfl, segmentsLoop]
    dsimp only
    rw [List.append_nil]
  have hL : extRej.load_audio "a.wav" 10 = Except.ok segRej := rfl
  have hF : extRej.lfilter segRej = Except.ok segRej := rfl
  have hS : extRej.slice segRej = Except.ok [segRej] := rfl
  have hmain : (process_audio extRej 10 1 "a.wav" 0 true true).2 =
      (process_audio_segment extRej 10 (List.replicate 13 (1 : ℚ)) 0 1 true).1 := by
    simp only [process_audio, hL, hF, hS, hsegs, eq_self_iff_true, if_true]
  rw [hmain]
  exact hg1

/-! ### C1: the per-file exception boundary -/

/-- C1 counterexample: a file that decodes successfully (two samples at
`sr = 1`, duration 2 s) and then raises inside the high-pass filter is
caught at the per-file boundary but contributes its full decoded duration
`2`, not `0` — `audio_length` is assigned before the filter runs (line
100), so the claim "an exception at any stage contributes a duration of 0"
is false. -/
theorem claim_C1_counterexample :
    (process_audio extFilterFail 1 3 "a.wav" 0 true true).1 = 2 ∧ (2 : ℚ) ≠ 0 := by
  constructor
  · have hL : extFilterFail.load_audio "a.wav" 1 = Except.ok [1, 1] := rfl
    have hF : extFilterFail.lfilter [1, 1] = Except.error "lfilter failed" := rfl
    simp only [process_audio, hL, eq_self_iff_true, if_true, hF]
    norm_num
  · norm_num

/-- The segment writer depends on the environment only through the write
and resample capabilities. -/
theorem paseg_ext (E E' : Ext) (hw : E'.writeOk = E.writeOk)
    (hr : E'.resample = E.resample) :
    ∀ sr a idx0 idx1 pe, process_audio_segment E' sr a idx0 idx1 pe =
      process_audio_segment E sr a idx0 idx1 pe := by
  intro sr a idx0 idx1 pe
  simp only [process_audio_segment, hw, hr]

/-- The window loop depends on the environment only through the write and
resample capabilities. -/
theorem segmentLoop_ext (E E' : Ext) (hw : E'.writeOk = E.writeOk)
    (hr : E'.resample = E.resample) :
    ∀ sr per seg idx0 pe fuel i j, segmentLoop E' sr per seg idx0 pe fuel i j =
      segmentLoop E sr per seg idx0 pe fuel i j := by
  intro sr per seg idx0 pe fuel
  induction fuel with
  | zero => intro i j; rfl
  | succ f ih =>
    intro i j
    simp only [segmentLoop, paseg_ext E E' hw hr, ih]

/-- The segments loop depends on the environment only through the write
and resample capabilities. -/
theorem segmentsLoop_ext (E E' : Ext) (hw : E'.writeOk = E.writeOk)
    (hr : E'.resample = E.resample) :
    ∀ sr per idx0 pe segs j, segmentsLoop E' sr per idx0 pe segs j =
      segmentsLoop E sr per idx0 pe segs j := by
  intro sr per idx0 pe segs
  induction segs with
  | nil => intro j; rfl
  | cons seg rest ih =>
    intro j
    simp only [segmentsLoop, segmentLoop_ext E E' hw hr, ih]

/-- C1 (amended): every per-file exception is caught at the per-file
boundary (`process_audio` is total).  A decode failure contributes
duration `0`; a failure at any later stage (filter, slicing, window
cutting, normalization, artifact write) contributes the already-computed
decoded duration `len(audio) / sr`.  The per-file result depends on the
decode capability only at the file's own path, so a failure injected for
one file never affects another file's processing or aborts the pool. -/
theorem claim_C1_exception_boundary (E : Ext) (sr : ℕ) (per : ℚ) (path : String)
    (idx0 : ℕ) (cut pe : Bool) :
    ((∃ e, E.load_audio path sr = .error e) →
      process_audio E sr per path idx0 cut pe = (0, [])) ∧
    (∀ audio0, E.load_audio path sr = .ok audio0 →
      (process_audio E sr per path idx0 cut pe).1 = (audio0.length : ℚ) / (sr : ℚ)) ∧
    (∀ g : String → ℕ → Except String (List ℚ), g path sr = E.load_audio path sr →
      process_audio { E with load_audio := g } sr per path idx0 cut pe =
        process_audio E sr per path idx0 cut pe) := by
  refine ⟨?_, ?_, ?_⟩
  · rintro ⟨e, he⟩
    simp [process_audio, he]
  · intro audio0 h
    rcases hfilt : (if pe then E.lfilter audio0 else Except.ok audio0) with e2 | audio
    · simp [process_audio, h, hfilt]
    · cases cut with
      | false => simp [process_audio, h, hfilt]
      | true =>
        rcases hslice : E.slice audio with e3 | segments
        · simp [process_audio, h, hfilt, hslice]
        · simp [process_audio, h, hfilt, hslice]
  · intro g hg
    simp only [process_audio,
      segmentsLoop_ext E { E with load_audio := g } rfl rfl,
      paseg_ext E { E with load_audio := g } rfl rfl, hg]

/-- C1 witness: a decode failure contributes `0`; a filter failure after a
2-sample decode at `sr = 1` contributes `2 / 1`; replacing the decode
capability by one that agrees at this path leaves the result unchanged. -/
theorem claim_C1_witness :
    process_audio extLoadFail 1 3 "a.wav" 0 true true = (0, []) ∧
    (process_audio extFilterFail 1 3 "a.wav" 0 true true).1 =
      (([1, 1] : List ℚ).length : ℚ) / ((1 : ℕ) : ℚ) ∧
    process_audio { extBase with load_audio := fun _ _ => Except.ok [1, 1] }
        1 3 "a.wav" 0 true true =
      process_audio extBase 1 3 "a.wav" 0 true true := by
  obtain ⟨h1, _, _⟩ := claim_C1_exception_boundary extLoadFail 1 3 "a.wav" 0 true true
  obtain ⟨_, k2, _⟩ := claim_C1_exception_boundary extFilterFail 1 3 "a.wav" 0 true true
  obtain ⟨_, _, m3⟩ := claim_C1_exception_boundary extBase 1 3 "a.wav" 0 true true
  exact ⟨h1 ⟨"decode failed", rfl⟩, k2 [1, 1] rfl,
    m3 (fun _ _ => Except.ok [1, 1]) rfl⟩

/-! ### C8: the duration report merge -/

theorem lookup_setKey_same (l : List (String × JVal)) (k : String) (v : JVal) :
    (setKey l k v).lookup k = some v := by
  induction l with
  | nil => simp [setKey, List.lookup]
  | cons p t ih =>
    obtain ⟨k1, v1⟩ := p
    by_cases h : k1 = k
    · subst h
      simp only [setKey, if_pos rfl]
      simp [List.lookup]
    · simp only [setKey, if_neg h]
      have hbe : (k == k1) = false := beq_eq_false_iff_ne.mpr (Ne.symm h)
      simp [List.lookup, hbe, ih]

theorem lookup_setKey_other (l : List (String × JVal)) (k k' : String) (v : JVal)
    (hne : k' ≠ k) : (setKey l k v).lookup k' = l.lookup k' := by
  induction l with
  | nil =>
    simp only [setKey]
    have hbe : (k' == k) = false := beq_eq_false_iff_ne.mpr hne
    simp [List.lookup, hbe]
  | cons p t ih =>
    obtain ⟨k1, v1⟩ := p
    by_cases h : k1 = k
    · subst h
      simp only [setKey, if_pos rfl]
      have hbe : (k' == k1) = false := beq_eq_false_iff_ne.mpr hne
      simp [List.lookup, hbe]
    · simp only [setKey, if_neg h]
      by_cases h2 : k' = k1
      · subst h2
        simp [List.lookup]
      · have hbe : (k' == k1) = false := beq_eq_false_iff_ne.mpr h2
        simp [List.lookup, hbe, ih]

/-- C8: merging the run's duration into a pre-existing report overwrites
exactly the two owned keys (`total_dataset_duration`, `total_seconds`)
with the run's values and preserves every other existing key unchanged. -/
theorem claim_C8_report_merge_preserves_keys (data : List (String × JVal)) (d : ℚ) :
    ∃ out, save_dataset_duration (ReportFile.found data) d = .ok out ∧
      out.lookup "total_dataset_duration" = some (Sum.inl (format_duration d)) ∧
      out.lookup "total_seconds" = some (Sum.inr d) ∧
      ∀ k, k ≠ "total_dataset_duration" → k ≠ "total_seconds" →
        out.lookup k = data.lookup k := by
  refine ⟨dictUpdate data (newReportData d), rfl, ?_, ?_, ?_⟩
  · show (setKey (setKey data "total_dataset_duration" (Sum.inl (format_duration d)))
        "total_seconds" (Sum.inr d)).lookup "total_dataset_duration" = _
    rw [lookup_setKey_other _ "total_seconds" "total_dataset_duration" _ (by decide),
      lookup_setKey_same]
  · show (setKey (setKey data "total_dataset_duration" (Sum.inl (format_duration d)))
        "total_seconds" (Sum.inr d)).lookup "total_seconds" = _
    rw [lookup_setKey_same]
  · intro k h1 h2
    show (setKey (setKey data "total_dataset_duration" (Sum.inl (format_duration d)))
        "total_seconds" (Sum.inr d)).lookup k = _
    rw [lookup_setKey_other _ _ _ _ h2, lookup_setKey_other _ _ _ _ h1]

/-- C8 witness: an existing report with an unrelated key `epochs` keeps it
unchanged while the two duration keys are written. -/
theorem claim_C8_witness :
    ∃ out, save_dataset_duration (ReportFile.found [("epochs", Sum.inr 5)]) 61 = .ok out ∧
      out.lookup "total_dataset_duration" = some (Sum.inl (format_duration 61)) ∧
      out.lookup "total_seconds" = some (Sum.inr 61) ∧
      out.lookup "epochs" = some (Sum.inr 5) := by
  obtain ⟨out, h1, h2, h3, h4⟩ :=
    claim_C8_report_merge_preserves_keys [("epochs", Sum.inr 5)] 61
  refine ⟨out, h1, h2, h3, ?_⟩
  rw [h4 "epochs" (by decide) (by decide)]
  simp [List.lookup]

/-! ### C9: run completion and fatal conditions -/

/-- C9 (amended): a run whose input root is readable completes and writes
the duration report for any per-file conditions, provided the pre-existing
report file is absent or parsable; if every file fails to decode the
report records duration `0`.  An unreadable input root fails the run
before any dispatch.  However — contrary to the claim as stated — a
pre-existing report file that is unparsable JSON is fatal after
processing: `save_dataset_duration` catches only `FileNotFoundError`, not
`JSONDecodeError` (see the counterexample). -/
theorem claim_C9_run_completion (E : Ext) (sr : ℕ) (per : ℚ) (cut pe : Bool) :
    (E.report ≠ ReportFile.invalid → ∀ names, E.listdir = .ok names →
      ∃ total rep ws, preprocess_training_set E sr per cut pe = .ok (total, rep, ws)) ∧
    (∀ e, E.listdir = .error e →
      preprocess_training_set E sr per cut pe = .error e) ∧
    ((∀ p, ∃ err, E.load_audio p sr = .error err) → E.report ≠ ReportFile.invalid →
      ∀ names, E.listdir = .ok names →
      ∃ rep ws, preprocess_training_set E sr per cut pe = .ok (0, rep, ws)) := by
  have hsave : E.report ≠ ReportFile.invalid →
      ∀ d : ℚ, ∃ out, save_dataset_duration E.report d = .ok out := by
    intro hrep d
    rcases hR : E.report with _ | _ | data
    · exact ⟨_, rfl⟩
    · exact absurd hR hrep
    · exact ⟨_, rfl⟩
  refine ⟨?_, ?_, ?_⟩
  · intro hrep names hls
    obtain ⟨out, hout⟩ := hsave hrep
      (((((names.enum.filter (fun p => isAudioFile p.2)).map (fun p => (p.2, p.1))).map
        (fun f => process_audio E sr per f.1 f.2 cut pe)).map Prod.fst).sum)
    refine ⟨(((((names.enum.filter (fun p => isAudioFile p.2)).map (fun p => (p.2, p.1))).map
        (fun f => process_audio E sr per f.1 f.2 cut pe)).map Prod.fst).sum), out,
      (((((names.enum.filter (fun p => isAudioFile p.2)).map (fun p => (p.2, p.1))).map
        (fun f => process_audio E sr per f.1 f.2 cut pe)).map Prod.snd).flatten), ?_⟩
    simp only [preprocess_training_set, hls, hout]
  · intro e he
    simp [preprocess_training_set, he]
  · intro hfail hrep names hls
    have hzero : ∀ f : String × ℕ,
        (process_audio E sr per f.1 f.2 cut pe).1 = 0 := by
      intro f
      obtain ⟨err, herr⟩ := hfail f.1
      simp [process_audio, herr]
    obtain ⟨out, hout⟩ := hsave hrep 0
    have hsum : ((((names.enum.filter (fun p => isAudioFile p.2)).map
        (fun p => (p.2, p.1))).map
        (fun f => process_audio E sr per f.1 f.2 cut pe)).map Prod.fst).sum = 0 := by
      apply List.sum_eq_zero
      intro x hx
      simp only [List.mem_map] at hx
      obtain ⟨r, ⟨f, _, rfl⟩, rfl⟩ := hx
      exact hzero f
    refine ⟨out, (((((names.enum.filter (fun p => isAudioFile p.2)).map (fun p => (p.2, p.1))).map
        (fun f => process_audio E sr per f.1 f.2 cut pe)).map Prod.snd).flatten), ?_⟩
    simp only [preprocess_training_set, hls, hsum, hout]

/-- C9 counterexample: an environment whose input root is readable (an
empty listing) but whose pre-existing report file is unparsable JSON —
the run fails with the uncaught `JSONDecodeError` and writes no report,
refuting "the run completes regardless of any report-file condition". -/
theorem claim_C9_counterexample :
    preprocess_training_set extBadReport 40000 3 true true =
      .error "JSONDecodeError" := rfl

/-- C9 witness: a benign run completes; an unreadable input root fails
before dispatch; a run in which every decode fails completes with a
zero-duration report. -/
theorem claim_C9_witness :
    (∃ total rep ws, preprocess_training_set extBase 1 3 true true =
      .ok (total, rep, ws)) ∧
    preprocess_training_set extNoRoot 1 3 true true =
      .error "input root unreadable" ∧
    (∃ rep ws, preprocess_training_set extLoadFail 1 3 true true =
      .ok (0, rep, ws)) := by
  obtain ⟨a1, _, _⟩ := claim_C9_run_completion extBase 1 3 true true
  obtain ⟨_, b2, _⟩ := claim_C9_run_completion extNoRoot 1 3 true true
  obtain ⟨_, _, c3⟩ := claim_C9_run_completion extLoadFail 1 3 true true
  exact ⟨a1 (by simp [extBase]) ["a.wav"] rfl,
    b2 "input root unreadable" rfl,
    c3 (fun p => ⟨"decode failed", rfl⟩) (by simp [extLoadFail, extBase]) ["a.wav"] rfl⟩


/-! ### C7: the ten-second end-to-end example -/

theorem natLoop_c7 : natLoop 108000 12000 400000 400002 0 =
    some [(0, 120000), (108000, 228000), (216000, 336000), (324000, 400000)] := by
  decide

theorem cutLoop_c7 : cutLoop 40000 3 400000 400002 0 =
    some [(0, 120000), (108000, 228000), (216000, 336000), (324000, 400000)] := by
  have hw : ((40000 : ℕ) : ℚ) * ((3 : ℚ) - OVERLAP) = ((108000 : ℕ) : ℚ) := by
    push_cast; norm_num [OVERLAP]
  have ho : OVERLAP * ((40000 : ℕ) : ℚ) = ((12000 : ℕ) : ℚ) := by
    push_cast; norm_num [OVERLAP]
  rw [cutLoop_eq_natLoop 40000 3 108000 12000 hw ho 400002 0 400000, natLoop_c7]

theorem cutRanges_c7 : cutRanges 40000 3 400000 =
    [(0, 120000), (108000, 228000), (216000, 336000), (324000, 400000)] := by
  rw [cutRanges, show (400000 : ℕ) + 2 = 400002 from rfl, cutLoop_c7]
  rfl

theorem format_duration_ten : format_duration 10 = "00:00:10" := by
  have h1 : ⌊(10 : ℚ) / 3600⌋ = 0 := by norm_num [Int.floor_eq_iff]
  have h2 : ⌊(10 : ℚ) / 60⌋ = 0 := by norm_num [Int.floor_eq_iff]
  have h4 : ⌊(10 : ℚ)⌋ = 10 := by norm_num
  simp only [format_duration, h1, h2, Int.cast_zero, mul_zero, sub_zero, h4]
  rfl

/-- C7 counterexample: at `sr = 40000`, `per = 3` on a 400000-sample
(10-second) segment, the window cutter emits only FOUR windows: its range
list has length 4, and the window at index 3 is `[324000, 400000)` — a
short tail of 76000 samples, strictly fewer than the `int(per * sr) =
120000` samples of a full window.  The spec’s end-to-end example expects
full windows at `idx1 = 0, 1, 2, 3` PLUS an additional final shorter tail
window (five windows, the tail at index 4), which the code refutes: the
full windows sit at indices 0, 1, 2 and the tail itself is window 3. -/
theorem claim_C7_counterexample :
    (cutRanges 40000 3 400000).length = 4 ∧
    (cutRanges 40000 3 400000).getD 3 (0, 0) = (324000, 400000) ∧
    400000 - 324000 < natFloor ((3 : ℚ) * ((40000 : ℕ) : ℚ)) := by
  refine ⟨by rw [cutRanges_c7]; rfl, by rw [cutRanges_c7]; rfl, ?_⟩
  rw [show (3 : ℚ) * ((40000 : ℕ) : ℚ) = ((120000 : ℕ) : ℚ) by push_cast; norm_num,
    natFloor_natCast]
  norm_num

/-- C7 (amended): for a 10-second mono input at 40000 Hz with `per = 3`,
`cut_preprocess` and `process_effects` enabled, the segmenter returning
the whole waveform as one segment, every write succeeding and no window
rejected by the normalizer, the cutter emits the four ranges
`[0, 120000), [108000, 228000), [216000, 336000), [324000, 400000)` —
full windows at `idx1 = 0, 1, 2` plus the final shorter tail window at
`idx1 = 3` — artifacts exist at both rates exactly for indices
`0, 1, 2, 3`, the reported duration is exactly `10` seconds, and it
formats as `"00:00:10"`. -/
theorem claim_C7_amended_end_to_end (E : Ext) (path : String) (xs ys : List ℚ)
    (hload : E.load_audio path 40000 = .ok xs)
    (hxlen : xs.length = 400000)
    (hfilt : E.lfilter xs = .ok ys)
    (hylen : ys.length = 400000)
    (hslice : E.slice ys = .ok [ys])
    (hW : ∀ w, E.writeOk w = true)
    (hacc : ∀ s t, ¬(5 / 2 < absPeak ((ys.drop s).take t)))
    (hacc2 : ∀ s, ¬(5 / 2 < absPeak (ys.drop s))) :
    cutRanges 40000 3 400000 =
      [(0, 120000), (108000, 228000), (216000, 336000), (324000, 400000)] ∧
    (process_audio E 40000 3 path 0 true true).1 = 10 ∧
    gtIdxs (process_audio E 40000 3 path 0 true true).2 = [0, 1, 2, 3] ∧
    k16Idxs (process_audio E 40000 3 path 0 true true).2 = [0, 1, 2, 3] ∧
    format_duration (process_audio E 40000 3 path 0 true true).1 = "00:00:10" := by
  have hcut : cutLoop 40000 3 ys.length 400002 0 =
      some [(0, 120000), (108000, 228000), (216000, 336000), (324000, 400000)] := by
    rw [hylen]; exact cutLoop_c7
  rcases hr1 : segmentLoop E 40000 3 ys 0 true 400002 0 0 with ⟨ws1, J1, ok1⟩
  have hcount := segmentLoop_count E 40000 3 ys 0 true hW (fun _ => hacc)
    (fun _ => hacc2) 400002 0 0 _ hcut
  rw [hr1] at hcount
  have hJ4 : J1 = 4 := by simpa using hcount.1
  have hok : ok1 = true := by simpa using hcount.2
  obtain ⟨_, _, hg, hk⟩ := segmentLoop_accept E 40000 3 ys 0 true hW
    (fun _ => hacc) (fun _ => hacc2) 400002 0 0 ws1 J1 ok1 hr1
  subst hJ4
  subst hok
  have hg4 : gtIdxs ws1 = [0, 1, 2, 3] := by rw [hg]; rfl
  have hk4 : k16Idxs ws1 = [0, 1, 2, 3] := by rw [hk]; rfl
  have hsegs : segmentsLoop E 40000 3 0 true [ys] 0 = (ws1, 4, true) := by
    rw [segmentsLoop]
    dsimp only
    rw [hylen, show (400000 : ℕ) + 2 = 400002 from rfl, hr1]
    dsimp only
    rw [if_pos rfl, segmentsLoop]
    dsimp only
    rw [List.append_nil]
  have hmain : process_audio E 40000 3 path 0 true true = (10, ws1) := by
    simp only [process_audio, hload, hfilt, hslice, hsegs, eq_self_iff_true, if_true]
    rw [hxlen, show (((400000 : ℕ) : ℚ) / ((40000 : ℕ) : ℚ)) = 10 by norm_num]
  refine ⟨cutRanges_c7, ?_, ?_, ?_, ?_⟩
  · rw [hmain]
  · rw [hmain]; exact hg4
  · rw [hmain]; exact hk4
  · rw [hmain]; exact format_duration_ten

/-- C7 witness: the environment `extTen`, whose single file decodes to
400000 samples of value `1/2` at 40000 Hz (every window has peak `1/2`,
so none is rejected). -/
theorem claim_C7_witness :
    cutRanges 40000 3 400000 =
      [(0, 120000), (108000, 228000), (216000, 336000), (324000, 400000)] ∧
    (process_audio extTen 40000 3 "a.wav" 0 true true).1 = 10 ∧
    gtIdxs (process_audio extTen 40000 3 "a.wav" 0 true true).2 = [0, 1, 2, 3] ∧
    k16Idxs (process_audio extTen 40000 3 "a.wav" 0 true true).2 = [0, 1, 2, 3] ∧
    format_duration (process_audio extTen 40000 3 "a.wav" 0 true true).1 = "00:00:10" := by
  have hpk : ∀ l : List ℚ, (∀ x ∈ l, x = 1 / 2) → ¬(5 / 2 < absPeak l) := by
    intro l hl
    have hb : absPeak l ≤ 1 / 2 := by
      apply absPeak_le (by norm_num)
      intro x hx
      rw [hl x hx, abs_of_nonneg (by norm_num : (0 : ℚ) ≤ 1 / 2)]
    linarith
  exact claim_C7_amended_end_to_end extTen "a.wav"
    (List.replicate 400000 (1 / 2)) (List.replicate 400000 (1 / 2))
    rfl (by rw [List.length_replicate]) rfl (by rw [List.length_replicate]) rfl (fun _ => rfl)
    (fun s t => hpk _ (fun x hx => List.eq_of_mem_replicate
      (List.mem_of_mem_drop (List.mem_of_mem_take hx))))
    (fun s => hpk _ (fun x hx => List.eq_of_mem_replicate (List.mem_of_mem_drop hx)))


end Preprocess
